import Mathlib

/-!
Verification of the response-parsing engine (src/core/analysis/parsers.py) and the
resilient completion orchestrator (src/core/llm/client.py) of the creatercav4
repository, as a shallow embedding in Lean.

Strings are modelled as `List Char`.  Python dictionaries are modelled as insertion
ordered association lists (`Dict`): assignment to an existing key replaces the value
in place, assignment to a fresh key appends.  Python exceptions are modelled with
`Except (List Char) _`, where the payload is the exception message.

The two pieces of library behaviour the source relies on are modelled explicitly:

* `loads` models Python's `json.loads` on the JSON grammar of RFC 8259 (strict
  decoding: leading and trailing whitespace allowed, nothing else around the one
  value; duplicate object keys keep the first position and the last value, as a
  CPython dict built by successive assignment does).  Not modelled, and unused by
  every theorem below: the `NaN`/`Infinity` extensions, combining of `\u` surrogate
  pairs, the Python `int`/`float` distinction (numbers are kept as mantissa and
  base-ten exponent), and non-ASCII case folding.

* Each regular-expression search of the source is translated to a dedicated
  function reproducing the exact search semantics of that pattern under its flag
  set (DOTALL, IGNORECASE, and for the formal-RCA patterns MULTILINE): leftmost
  match, greedy `\s*` runs, lazy captures stopped by the written lookahead
  alternatives or by `$` (which under MULTILINE also matches before every newline,
  so those captures end at the first newline).  These translations were checked
  point by point against CPython's `re` on the boundary cases that matter below.

Python dict keys occurring here are always hashable values (unhashable update
keys raise, see `elemToPair`), and are compared with `jKeyEq`; the exotic Python
key identifications `True == 1` and `1 == 1.0` are not modelled (no theorem uses
non-string keys).
-/

/-- JSON values, the result type of the `json.loads` model.  A number is kept as
a mantissa and a base-ten exponent. -/
inductive JValue : Type where
  | null : JValue
  | bool : Bool → JValue
  | num : Int → Int → JValue
  | str : List Char → JValue
  | arr : List JValue → JValue
  | obj : List (List Char × JValue) → JValue

/-- The opening curly brace character (written via its code point so that the
development stays free of brace characters in literals). -/
def lbraceChar : Char := Char.ofNat 123

/-- The closing curly brace character. -/
def rbraceChar : Char := Char.ofNat 125

/-- Equality of Python dict keys.  Keys reaching a dict in this development are
always null, booleans, numbers or strings; composite values are unhashable in
Python and are rejected before insertion. -/
def jKeyEq : JValue → JValue → Bool
  | .null, .null => true
  | .bool a, .bool b => a == b
  | .num m1 e1, .num m2 e2 => m1 == m2 && e1 == e2
  | .str a, .str b => a == b
  | _, _ => false

/-- A Python dictionary: an insertion-ordered association list. -/
abbrev Dict := List (JValue × JValue)

/-- Dictionary lookup. -/
def dictFind (d : Dict) (k : JValue) : Option JValue :=
  match d with
  | [] => none
  | (k0, v0) :: t => if jKeyEq k0 k then some v0 else dictFind t k

/-- Python dict assignment `d[k] = v`: replace in place, or append a fresh key. -/
def dictSet (d : Dict) (k v : JValue) : Dict :=
  match d with
  | [] => [(k, v)]
  | (k0, v0) :: t => if jKeyEq k0 k then (k0, v) :: t else (k0, v0) :: dictSet t k v

/-- Python `d1.update(pairs)`: successive assignments in order. -/
def pyUpdate (d : Dict) (ps : List (JValue × JValue)) : Dict :=
  ps.foldl (fun a p => dictSet a p.1 p.2) d

/-- The value the key `k` would have after updating an empty dict with `ps`:
the value of the last pair carrying `k`. -/
def lookLast (ps : List (JValue × JValue)) (k : JValue) : Option JValue :=
  match ps with
  | [] => none
  | (k0, v0) :: t =>
    match lookLast t k with
    | some v => some v
    | none => if jKeyEq k0 k then some v0 else none

/-- Shorthand: a JSON string value from a string literal. -/
def jstr (s : String) : JValue := JValue.str s.data

/-- Lookup under a string key. -/
def findS (d : Dict) (s : String) : Option JValue := dictFind d (jstr s)

/-- The characters Python's `str.strip()` and the regex class `\s` remove
(ASCII range; non-ASCII whitespace is out of scope here). -/
def pyIsWs (c : Char) : Bool := (" \t\n\r\x0b\x0c").data.contains c

/-- Python `str.strip()`. -/
def pyStrip (l : List Char) : List Char :=
  ((l.dropWhile pyIsWs).reverse.dropWhile pyIsWs).reverse

/-- Python `str.split('\n')`. -/
def pySplitNL : List Char → List (List Char)
  | [] => [[]]
  | c :: t =>
    match pySplitNL t with
    | [] => [[c]]
    | h :: r => if c == '\n' then [] :: h :: r else (c :: h) :: r

/-- Python `'\n'.join(lines)`. -/
def joinNL : List (List Char) → List Char
  | [] => []
  | [x] => x
  | x :: r => x ++ '\n' :: joinNL r

/-- Case-insensitive character comparison (ASCII case folding, matching
`re.IGNORECASE` on the ASCII inputs of this code base). -/
def lowEq (a b : Char) : Bool := a.toLower == b.toLower

/-- Does `p` occur at the head of `l` (exact characters)? -/
def hasPfx : List Char → List Char → Bool
  | [], _ => true
  | _ :: _, [] => false
  | a :: p, b :: l => a == b && hasPfx p l

/-- Does `p` occur at the head of `l`, case-insensitively? -/
def hasPfxCI : List Char → List Char → Bool
  | [], _ => true
  | _ :: _, [] => false
  | a :: p, b :: l => lowEq a b && hasPfxCI p l

/-- Does `n` occur contiguously anywhere in `l` (exact characters)?  Models
Python's `in` on strings. -/
def containsSub (n : List Char) : List Char → Bool
  | [] => hasPfx n []
  | l@(_ :: t) => hasPfx n l || containsSub n t

/-! ### Model of `json.loads` -/

/-- JSON insignificant whitespace. -/
def jsonWsChar (c : Char) : Bool := (" \t\n\r").data.contains c

/-- Is the character a hexadecimal digit? -/
def isHexDig (c : Char) : Bool :=
  c.isDigit || ('a' ≤ c.toLower && c.toLower ≤ 'f')

/-- Value of a hexadecimal digit. -/
def hexVal (c : Char) : Nat :=
  if c.isDigit then c.toNat - 48
  else if 'a' ≤ c.toLower ∧ c.toLower ≤ 'f' then c.toLower.toNat - 87
  else 0

/-- The single-character JSON string escapes. -/
def escChar : Char → Option Char
  | '"' => some '"'
  | '\\' => some '\\'
  | '/' => some '/'
  | 'b' => some '\x08'
  | 'f' => some '\x0c'
  | 'n' => some '\n'
  | 'r' => some '\r'
  | 't' => some '\t'
  | _ => none

/-- Parse the body of a JSON string (the opening quote already consumed),
returning the decoded characters and the rest after the closing quote. -/
def parseStrBody : Nat → List Char → Option (List Char × List Char)
  | 0, _ => none
  | _ + 1, [] => none
  | f + 1, c :: t =>
    if c == '"' then some ([], t)
    else if c == '\\' then
      match t with
      | [] => none
      | e :: t2 =>
        if e == 'u' then
          match t2 with
          | a :: b :: c2 :: d :: t3 =>
            if isHexDig a && isHexDig b && isHexDig c2 && isHexDig d then
              (parseStrBody f t3).map fun p =>
                (Char.ofNat (((hexVal a * 16 + hexVal b) * 16 + hexVal c2) * 16 + hexVal d) :: p.1,
                  p.2)
            else none
          | _ => none
        else
          match escChar e with
          | some ec => (parseStrBody f t2).map fun p => (ec :: p.1, p.2)
          | none => none
    else if c.toNat < 32 then none
    else (parseStrBody f t).map fun p => (c :: p.1, p.2)

/-- Digits to a natural number. -/
def digitsVal (ds : List Char) : Nat := ds.foldl (fun a c => a * 10 + (c.toNat - 48)) 0

/-- Parse a JSON number token (strict grammar: optional minus, no leading zeros,
optional fraction and exponent), as mantissa and base-ten exponent. -/
def parseNumber (l : List Char) : Option (JValue × List Char) :=
  let sn : Bool × List Char :=
    match l with
    | c :: t => if c == '-' then (true, t) else (false, l)
    | [] => (false, l)
  let neg := sn.1
  let l1 := sn.2
  match l1 with
  | [] => none
  | c :: _ =>
    if ¬ c.isDigit then none
    else
      let ids := l1.takeWhile Char.isDigit
      let r1 := l1.dropWhile Char.isDigit
      if ids.length > 1 && ids.headD '0' == '0' then none
      else
        let fr : List Char × List Char :=
          match r1 with
          | '.' :: t2 =>
            let fds := t2.takeWhile Char.isDigit
            if fds.isEmpty then ([], r1) else (fds, t2.dropWhile Char.isDigit)
          | _ => ([], r1)
        let fds := fr.1
        let r2 := fr.2
        let ex : Int × List Char :=
          match r2 with
          | e :: t3 =>
            if e == 'e' || e == 'E' then
              let sg : Bool × List Char :=
                match t3 with
                | s :: tt => if s == '+' then (false, tt) else if s == '-' then (true, tt) else (false, t3)
                | [] => (false, t3)
              let eds := sg.2.takeWhile Char.isDigit
              if eds.isEmpty then ((0 : Int), r2)
              else (if sg.1 then -(digitsVal eds : Int) else (digitsVal eds : Int), sg.2.dropWhile Char.isDigit)
            else ((0 : Int), r2)
          | [] => ((0 : Int), r2)
        let mAbs : Nat := digitsVal ids * 10 ^ fds.length + digitsVal fds
        let m : Int := if neg then -(mAbs : Int) else (mAbs : Int)
        some (JValue.num m (ex.1 - fds.length), ex.2)

/-- Assignment into the string-keyed pair list of a JSON object under
construction (first position, last value, as in a CPython dict). -/
def objSet (m : List (List Char × JValue)) (k : List Char) (v : JValue) :
    List (List Char × JValue) :=
  match m with
  | [] => [(k, v)]
  | (k0, v0) :: t => if k0 == k then (k0, v) :: t else (k0, v0) :: objSet t k v

mutual

/-- Parse one JSON value at the head of the input (no leading whitespace),
returning it and the unconsumed rest. -/
def parseJValue : Nat → List Char → Option (JValue × List Char)
  | 0, _ => none
  | f + 1, l =>
    match l with
    | [] => none
    | c :: t =>
      if c == 'n' then if hasPfx (("ull").data) t then some (.null, t.drop 3) else none
      else if c == 't' then if hasPfx (("rue").data) t then some (.bool true, t.drop 3) else none
      else if c == 'f' then if hasPfx (("alse").data) t then some (.bool false, t.drop 4) else none
      else if c == '"' then (parseStrBody (t.length + 1) t).map fun p => (.str p.1, p.2)
      else if c == '[' then
        let t2 := t.dropWhile jsonWsChar
        match t2 with
        | ']' :: r => some (.arr [], r)
        | _ => parseArrItems f t2 []
      else if c == lbraceChar then
        let t2 := t.dropWhile jsonWsChar
        match t2 with
        | c2 :: r => if c2 == rbraceChar then some (.obj [], r) else parseObjItems f t2 []
        | [] => none
      else parseNumber l

/-- Parse the comma-separated items of a JSON array (past the opening bracket). -/
def parseArrItems : Nat → List Char → List JValue → Option (JValue × List Char)
  | 0, _, _ => none
  | f + 1, l, acc =>
    match parseJValue f l with
    | none => none
    | some (v, r) =>
      match r.dropWhile jsonWsChar with
      | ',' :: r2 => parseArrItems f (r2.dropWhile jsonWsChar) (acc ++ [v])
      | ']' :: r2 => some (.arr (acc ++ [v]), r2)
      | _ => none

/-- Parse the members of a JSON object (past the opening brace, at a key). -/
def parseObjItems : Nat → List Char → List (List Char × JValue) → Option (JValue × List Char)
  | 0, _, _ => none
  | f + 1, l, acc =>
    match l with
    | '"' :: t =>
      match parseStrBody (t.length + 1) t with
      | none => none
      | some (k, r) =>
        match r.dropWhile jsonWsChar with
        | ':' :: r2 =>
          match parseJValue f (r2.dropWhile jsonWsChar) with
          | none => none
          | some (v, r3) =>
            let acc2 := objSet acc k v
            match r3.dropWhile jsonWsChar with
            | [] => none
            | c :: r4 =>
              if c == ',' then
                parseObjItems f (r4.dropWhile jsonWsChar) acc2
              else if c == rbraceChar then some (.obj acc2, r4)
              else none
        | _ => none
    | _ => none

end

/-- Model of `json.loads`: exactly one JSON value, whitespace allowed around it. -/
def loads (l : List Char) : Option JValue :=
  let l1 := l.dropWhile jsonWsChar
  match parseJValue (2 * l1.length + 4) l1 with
  | some (v, r) => if (r.dropWhile jsonWsChar).isEmpty then some v else none
  | none => none

/-! ### Python truthiness and `dict.update` on an arbitrary decoded value -/

/-- Python truthiness of a decoded JSON value (`if json_data:`). -/
def pyTruthy : JValue → Bool
  | .null => false
  | .bool b => b
  | .num m _ => m != 0
  | .str s => !s.isEmpty
  | .arr a => !a.isEmpty
  | .obj m => !m.isEmpty

/-- One element of a `dict.update` sequence argument: it must be an iterable of
length two with a hashable first component, else `update` raises. -/
def elemToPair : JValue → Except (List Char) (JValue × JValue)
  | .arr [k, v] =>
    match k with
    | .arr _ => .error (("TypeError: unhashable key").data)
    | .obj _ => .error (("TypeError: unhashable key").data)
    | _ => .ok (k, v)
  | .arr _ => .error (("ValueError: update sequence element of bad length").data)
  | .str s =>
    match s with
    | [a, b] => .ok (.str [a], .str [b])
    | _ => .error (("ValueError: update sequence element of bad length").data)
  | .obj m =>
    match m with
    | [(k1, _), (k2, _)] => .ok (.str k1, .str k2)
    | _ => .error (("ValueError: update sequence element of bad length").data)
  | _ => .error (("TypeError: update sequence element is not iterable").data)

/-- The key/value pairs `d.update(v)` would iterate over, or the exception it
raises: a mapping contributes its items; any other iterable must consist of
pair-like elements; a non-iterable raises `TypeError` (CPython words the
message after the concrete type, as in `TypeError: int object is not
iterable`; the model keeps one generic message). -/
def toPairs : JValue → Except (List Char) (List (JValue × JValue))
  | .obj m => .ok (m.map fun p => (JValue.str p.1, p.2))
  | .arr l => l.mapM elemToPair
  | .str s =>
    ((s.map (fun c => JValue.str [c])).mapM elemToPair :
      Except (List Char) (List (JValue × JValue)))
  | _ => .error (("TypeError: update argument is not iterable").data)

/-- Python `result.update(json_data)` for a decoded JSON value: succeeds with the
merged dict, or raises. -/
def pyUpdateJ (d : Dict) (v : JValue) : Except (List Char) Dict :=
  (toPairs v).map fun ps => pyUpdate d ps

/-! ### Model of `ResponseParser._extract_json` -/

/-- The rest of the input from its first opening brace. -/
def firstBraceSplit : List Char → Option (List Char)
  | [] => none
  | c :: t => if c == lbraceChar then some (c :: t) else firstBraceSplit t

/-- The prefix of the input up to and including its last closing brace. -/
def takeToLastClose : List Char → Option (List Char)
  | [] => none
  | c :: t =>
    match takeToLastClose t with
    | some r => some (c :: r)
    | none => if c == rbraceChar then some [c] else none

/-- The span matched by `re.search(r'\{.*\}', text, re.DOTALL)`: from the first
opening brace to the last closing brace after it (greedy `.*` under DOTALL). -/
def braceSpan (l : List Char) : Option (List Char) :=
  (firstBraceSplit l).bind takeToLastClose

/-- `ResponseParser._extract_json` (parsers.py lines 70-83): direct `json.loads`
first, then `json.loads` of the brace span; `None` when both fail. -/
def extract_json (text : List Char) : Option JValue :=
  match loads text with
  | some v => some v
  | none => (braceSpan text).bind loads

/-! ### Regex search machinery shared by the section extractors -/

/-- Drop a leading whitespace run (a greedy `\s*`), also reporting whether the
last dropped character was a newline, i.e. whether the position after the run
is at the start of a line. -/
def dropWsNL (l : List Char) : List Char × Bool :=
  (l.dropWhile pyIsWs, ((l.takeWhile pyIsWs).getLastD 'x') == '\n')

/-- Match a header written as literal chunks joined by `\s*` gaps (and a final
trailing `\s*`), case-insensitively.  Returns the rest after the final gap and
whether that position starts a line. -/
def chunksMatchCI : List (List Char) → List Char → Option (List Char × Bool)
  | [], l => some (dropWsNL l)
  | c :: cs, l =>
    if hasPfxCI c l then
      match cs with
      | [] => some (dropWsNL (l.drop c.length))
      | _ :: _ => chunksMatchCI cs ((l.drop c.length).dropWhile pyIsWs)
    else none

/-- Try each header alternative, in the alternation order of the pattern. -/
def tryAlts (alts : List (List (List Char))) (l : List Char) : Option (List Char × Bool) :=
  match alts with
  | [] => none
  | a :: rest =>
    match chunksMatchCI a l with
    | some r => some r
    | none => tryAlts rest l

/-- Leftmost match of a `(?:^|\n)`-anchored header: scan the positions of the
text in order, trying the alternatives at each line start. -/
def formalScan (alts : List (List (List Char))) : List Char → Bool → Option (List Char × Bool)
  | [], atStart => if atStart then tryAlts alts [] else none
  | c :: t, atStart =>
    match (if atStart then tryAlts alts (c :: t) else none) with
    | some r => some r
    | none => formalScan alts t (c == '\n')

/-- The lazy capture `(.*?)(?=(?:^|\n)STOP|$)` under MULTILINE: under that flag
`$` also matches before every newline, so the capture is empty when the capture
start is a line start carrying the stop literal, and otherwise runs to the
first newline or the end of text. -/
def formalCapture (stop : List Char) (rest : List Char) (atLS : Bool) : List Char :=
  if atLS && hasPfx stop rest then [] else rest.takeWhile fun c => c != '\n'

/-- One formal-RCA section pattern: anchored header search plus capture. -/
def formalSection (alts : List (List (List Char))) (stop : List Char) (text : List Char) :
    Option (List Char) :=
  (formalScan alts text true).map fun r => formalCapture stop r.1 r.2

/-- The alternatives of a fallback pattern `(?:^|\n)(?:###?\s*)?(?:A|B)`, in
backtracking order: the optional heading marks are tried longest first, and at
equal consumption alternative `a` precedes alternative `b`. -/
def optHashAlts (a b : List Char) : List (List (List Char)) :=
  [[("###").data, a], [("###").data, b], [("##").data, a], [("##").data, b], [a], [b]]

/-- The section pattern table of `_parse_formal_rca_sections` (parsers.py lines
138-203), in source order: field name, header alternatives, stop literal. -/
def formalPatternTable : List (List Char × List (List (List Char)) × List Char) :=
  [ (("executive_summary").data,
      [[("### C.").data, ("Executive Summary").data], [("Executive Summary").data]],
      ("##").data),
    (("timeline").data, [[("### A.").data, ("Timeline").data]], ("###").data),
    (("case_information").data, [[("### B.").data, ("Case Information").data]], ("###").data),
    (("problem_summary").data, [[("### A.").data, ("Problem Summary").data]], ("###").data),
    (("technical_analysis").data,
      [[("##").data, ("II.").data, ("TECHNICAL ANALYSIS").data]], ("##").data),
    (("impact_assessment").data, [[("### B.").data, ("Impact Assessment").data]], ("###").data),
    (("root_cause").data, [[("### C.").data, ("Root Cause Analysis").data]], ("###").data),
    (("risk_assessment").data,
      [[("##").data, ("III.").data, ("RISK ASSESSMENT").data]], ("##").data),
    (("likelihood_of_occurrence").data,
      [[("### A.").data, ("Likelihood of Occurrence").data]], ("###").data),
    (("vulnerability_assessment").data,
      [[("### B.").data, ("Vulnerability in Existing Environment").data]], ("###").data),
    (("risk_profile").data, [[("### C.").data, ("Overall Risk Profile").data]], ("###").data),
    (("mitigation_resolution").data,
      [[("##").data, ("IV.").data, ("MITIGATION AND RESOLUTION").data]], ("##").data),
    (("workaround_solutions").data,
      [[("### A.").data, ("Workaround Solutions").data]], ("###").data),
    (("defect_resolution").data,
      [[("### B.").data, ("Known Defect Resolution").data]], ("###").data),
    (("new_defect_management").data,
      [[("### C.").data, ("New Defect Management").data]], ("###").data),
    (("recommended_changes").data,
      [[("### D.").data, ("Recommended System/Environmental Changes").data]], ("###").data),
    (("prevention").data,
      [[("##").data, ("V.").data, ("PREVENTION STRATEGY").data]], ("##").data),
    (("current_prevention").data,
      [[("### A.").data, ("Current Environment Prevention").data]], ("###").data),
    (("future_prevention").data,
      [[("### B.").data, ("Future Prevention Initiatives").data]], ("###").data),
    (("monitoring_detection").data,
      [[("### C.").data, ("Monitoring and Detection").data]], ("###").data),
    (("customer_impact").data, optHashAlts (("Customer Impact").data) (("Impact").data),
      ("##").data),
    (("technical_summary").data, optHashAlts (("Technical Summary").data) (("Summary").data),
      ("##").data),
    (("next_steps").data, optHashAlts (("Next Steps").data) (("Steps").data), ("##").data),
    (("escalation").data, optHashAlts (("Escalation").data) (("Escalated").data), ("##").data) ]

/-- The body of the first loop of `_parse_formal_rca_sections`: keep a
stripped capture longer than ten characters under the pattern name. -/
def formalStep (text : List Char) (acc : Dict)
    (e : List Char × List (List (List Char)) × List Char) : Dict :=
  match formalSection e.2.1 e.2.2 text with
  | some cap =>
    let content := pyStrip cap
    if content.length > 10 then dictSet acc (JValue.str e.1) (JValue.str content) else acc
  | none => acc

/-- The first loop of `_parse_formal_rca_sections`: run every pattern, keep
stripped contents longer than ten characters. -/
def runFormalPatterns (text : List Char) : Dict :=
  formalPatternTable.foldl (formalStep text) []

/-- Split on a literal separator sequence, non-overlapping and left to right
(Python `re.split` with a literal pattern).  Fuel is the input length. -/
def splitOnSeqGo (sep : List Char) : Nat → List Char → List (List Char)
  | _, [] => [[]]
  | 0, l => [l]
  | f + 1, c :: t =>
    if sep.length != 0 && hasPfx sep (c :: t) then
      [] :: splitOnSeqGo sep f ((c :: t).drop sep.length)
    else
      match splitOnSeqGo sep f t with
      | [] => [[c]]
      | h :: r => (c :: h) :: r

/-- Split on a literal separator sequence. -/
def splitOnSeq (sep l : List Char) : List (List Char) := splitOnSeqGo sep l.length l

/-- The keyword routing of `_extract_by_headers` (parsers.py lines 246-256):
map an upper-cased header line to a section key by the source's `elif` chain. -/
def headerKeyFor (header : List Char) : Option (List Char) :=
  let up := header.map Char.toUpper
  if containsSub (("INCIDENT").data) up || containsSub (("OVERVIEW").data) up then
    some (("incident_overview").data)
  else if containsSub (("TECHNICAL").data) up && containsSub (("ANALYSIS").data) up then
    some (("technical_analysis").data)
  else if containsSub (("RISK").data) up then some (("risk_assessment").data)
  else if containsSub (("MITIGATION").data) up || containsSub (("RESOLUTION").data) up then
    some (("mitigation_resolution").data)
  else if containsSub (("PREVENTION").data) up then some (("prevention").data)
  else none

/-- The body of the loop of `_extract_by_headers`: route one split section by
the keywords in its first line. -/
def byHeadersStep (acc : Dict) (sect : List Char) : Dict :=
  match pySplitNL sect with
  | [] => acc
  | h :: rest =>
    let header := pyStrip h
    let content := pyStrip (joinNL rest)
    match headerKeyFor header with
    | some k => dictSet acc (JValue.str k) (JValue.str content)
    | none => acc

/-- `ResponseParser._extract_by_headers` (parsers.py lines 229-258): split on
the literal `\n## `, skip the content before the first header, and route each
section by keywords in its first line. -/
def extract_by_headers (text : List Char) : Dict :=
  ((splitOnSeq (("\n## ").data) text).drop 1).foldl byHeadersStep []

/-- The sections `_parse_formal_rca_sections` has gathered just before its
final executive-summary fallback: the pattern table, then the broader header
extraction when fewer than three sections were found. -/
def formal_sections_prefallback (text : List Char) : Dict :=
  let s1 := runFormalPatterns text
  if s1.length < 3 then pyUpdate s1 (extract_by_headers text) else s1

/-- `ResponseParser._parse_formal_rca_sections` (parsers.py lines 134-227):
pattern table, then the broader header extraction when fewer than three
sections were found, then the whole stripped text as executive summary when
still nothing was found. -/
def parse_formal_rca_sections (text : List Char) : Dict :=
  let s2 := formal_sections_prefallback text
  if s2.isEmpty then [(jstr ("executive_summary"), JValue.str (pyStrip text))] else s2

/-! ### Model of the KT-section extractor -/

/-- Leftmost case-insensitive occurrence of a literal pattern; returns the rest
after it (an unanchored `re.search` whose pattern starts with the literal). -/
def scanCI (pat : List Char) : List Char → Option (List Char)
  | [] => if hasPfxCI pat [] then some [] else none
  | l@(_ :: t) => if hasPfxCI pat l then some (l.drop pat.length) else scanCI pat t

/-- The lazy capture `(.*?)(?=STOP1|STOP2|$)` without MULTILINE: run until a
stop literal matches (case-insensitively) or the end of text (`$` also matches
just before a final newline). -/
def ktCapture (stops : List (List Char)) : List Char → List Char
  | [] => []
  | c :: t =>
    if stops.any (fun s => hasPfxCI s (c :: t)) then []
    else if t.isEmpty && c == '\n' then []
    else c :: ktCapture stops t

/-- One KT pattern: literal header anywhere, greedy `\s*`, lazy capture. -/
def ktSection (header : List Char) (stops : List (List Char)) (text : List Char) :
    Option (List Char) :=
  (scanCI header text).map fun rest => ktCapture stops (rest.dropWhile pyIsWs)

/-- The `kt_section_patterns` table of the `ResponseParser` constructor
(parsers.py lines 16-23), in source order: name, header literal, stop literals. -/
def ktPatternTable : List (List Char × List Char × List (List Char)) :=
  [ (("kepner_tregoe_analysis").data, ("### KEPNER-TREGOE PROBLEM ANALYSIS").data,
      [("### RECOMMENDATIONS").data]),
    (("is_is_not_table").data, ("#### 2. Problem Specification (IS/IS NOT Analysis)").data,
      [("####").data, ("###").data]),
    (("root_cause_analysis").data, ("#### 3. Root Cause Analysis").data,
      [("####").data, ("###").data]),
    (("solution_development").data, ("#### 4. Solution Development").data,
      [("####").data, ("###").data]),
    (("prevention_strategy").data, ("#### 5. Prevention Strategy").data,
      [("####").data, ("###").data]),
    (("recommendations").data, ("### RECOMMENDATIONS AND NEXT STEPS").data,
      [("###").data]) ]

/-- The first normalization step of `_clean_markdown_table`: prepend the
separator when the line does not start with one. -/
def padLeadSep (l : List Char) : List Char :=
  if hasPfx (("|").data) l then l else ("| ").data ++ l

/-- The second normalization step: append the separator when the line does not
end with one. -/
def padTrailSep (l : List Char) : List Char :=
  if (l.getLastD ' ') == '|' then l else l ++ (" |").data

/-- One line of `_clean_markdown_table` (parsers.py lines 105-123): strip; a
non-blank line containing the column separator is normalized to begin and end
with it; other non-blank lines are kept unless they start with a dash. -/
def cleanTableLine (line : List Char) : Option (List Char) :=
  let l := pyStrip line
  if !l.isEmpty && l.contains '|' then some (padTrailSep (padLeadSep l))
  else if !l.isEmpty && !hasPfx (("-").data) l then some l
  else none

/-- `ResponseParser._clean_markdown_table`. -/
def clean_markdown_table (t : List Char) : List Char :=
  joinNL ((pySplitNL (pyStrip t)).filterMap cleanTableLine)

/-- The body of the KT table loop: keep a non-empty stripped capture under the
pattern name. -/
def ktStep (text : List Char) (acc : Dict)
    (e : List Char × List Char × List (List Char)) : Dict :=
  match ktSection e.2.1 e.2.2 text with
  | some cap =>
    let content := pyStrip cap
    if content.isEmpty then acc else dictSet acc (JValue.str e.1) (JValue.str content)
  | none => acc

/-- The table fold of `_parse_kt_sections` (parsers.py lines 85-103). -/
def kt_sections_base (text : List Char) : Dict :=
  ktPatternTable.foldl (ktStep text) []

/-- The IS/IS NOT special handling closing `_parse_kt_sections`. -/
def parse_kt_sections (text : List Char) : Dict :=
  match dictFind (kt_sections_base text) (jstr ("is_is_not_table")) with
  | some (JValue.str tb) =>
    dictSet (kt_sections_base text) (jstr ("is_is_not_table"))
      (JValue.str (clean_markdown_table tb))
  | _ => kt_sections_base text

/-! ### Model of the initial-analysis extractor -/

/-- Split a leading whitespace run from the rest. -/
def wsRun (l : List Char) : List Char × List Char := (l.takeWhile pyIsWs, l.dropWhile pyIsWs)

/-- Take the segment up to the next colon, requiring the colon to exist. -/
def colonSeg (l : List Char) : Option (List Char × List Char) :=
  let seg := l.takeWhile fun c => c != ':'
  match l.drop seg.length with
  | ':' :: rest => some (seg, rest)
  | _ => none

/-- One `\s{minWs,}([^:]+)\s*:` field of the CAP-line pattern, with the
backtracking CPython performs when the segment before the colon is empty: the
whitespace run gives up its last character to the field when it can. -/
def fieldTo (minWs : Nat) (l : List Char) : Option (List Char × List Char) :=
  let p := wsRun l
  if p.1.length < minWs then none
  else
    match colonSeg p.2 with
    | none => none
    | some (seg, r) =>
      if !seg.isEmpty then some (seg, r)
      else if p.1.length > minWs then some ([p.1.getLastD ' '], r) else none

/-- The final `\s*(.+)` of the CAP-line pattern: skip whitespace greedily and
take the rest of the line; when only whitespace remains, backtracking yields
the last whitespace character unless it is a newline. -/
def lastField (l : List Char) : Option (List Char) :=
  let p := wsRun l
  if !p.2.isEmpty then some (p.2.takeWhile fun c => c != '\n')
  else
    match p.1.getLast? with
    | some c => if c == '\n' then none else some [c]
    | none => none

/-- Attempt the CAP-line pattern of `_parse_initial_analysis_sections`
(parsers.py line 264) at the given position. -/
def tryCapAt (l : List Char) :
    Option (List Char × List Char × List Char × List Char × List Char) :=
  if hasPfxCI (("CAP").data) l then
    match fieldTo 1 (l.drop 3) with
    | none => none
    | some (f1, r1) =>
      match fieldTo 0 r1 with
      | none => none
      | some (f2, r2) =>
        let r3 := (wsRun r2).2
        if hasPfxCI (("SAP").data) r3 then
          match fieldTo 1 (r3.drop 3) with
          | none => none
          | some (f3, r4) =>
            match fieldTo 0 r4 with
            | none => none
            | some (f4, r5) =>
              match lastField r5 with
              | none => none
              | some f5 => some (f1, f2, f3, f4, f5)
        else none
  else none

/-- Leftmost position where the CAP-line pattern matches. -/
def capScan : List Char → Option (List Char × List Char × List Char × List Char × List Char)
  | [] => none
  | l@(_ :: t) =>
    match tryCapAt l with
    | some r => some r
    | none => capScan t

/-- Leftmost unanchored match of a chunked header (chunks joined by `\s*`),
returning the rest after the final whitespace run. -/
def scanChunksCI (chunks : List (List Char)) : List Char → Option (List Char)
  | [] => (chunksMatchCI chunks []).map Prod.fst
  | l@(_ :: t) =>
    match chunksMatchCI chunks l with
    | some r => some r.1
    | none => scanChunksCI chunks t

/-- The lazy capture `(.*?)(?=\d\)|$)` of the numbered initial-analysis
patterns: stop before a digit followed by a closing parenthesis, or at the end
of text (also just before a final newline). -/
def numCapture : List Char → List Char
  | [] => []
  | c :: t =>
    if c.isDigit && (match t with | c2 :: _ => c2 == ')' | [] => false) then []
    else if t.isEmpty && c == '\n' then []
    else c :: numCapture t

/-- The numbered section table of `_parse_initial_analysis_sections`
(parsers.py lines 273-281), in source order. -/
def initPatternTable : List (List Char × List (List Char)) :=
  [ (("people").data, [("1)").data, ("People").data]),
    (("timeline").data, [("2)").data, ("Timeline").data]),
    (("technical_summary").data, [("3)").data, ("Technical Summary").data]),
    (("impact").data, [("4)").data, ("Impact").data]),
    (("next_steps").data, [("5)").data, ("Next Steps").data]),
    (("escalation").data, [("6)").data, ("Escalation").data]),
    (("recommendations").data, [("7)").data, ("Recommendations").data]) ]

/-- The body of the numbered-section loop of
`_parse_initial_analysis_sections`. -/
def initStep (text : List Char) (acc : Dict) (e : List Char × List (List Char)) : Dict :=
  match scanChunksCI e.2 text with
  | some rest =>
    let content := pyStrip (numCapture rest)
    if content.isEmpty then acc else dictSet acc (JValue.str e.1) (JValue.str content)
  | none => acc

/-- The CAP-line stage of `_parse_initial_analysis_sections` (parsers.py
lines 260-295): five fields assigned when the CAP pattern matches. -/
def init_cap_sections (text : List Char) : Dict :=
  match capScan text with
  | some (f1, f2, f3, f4, f5) =>
    dictSet (dictSet (dictSet (dictSet (dictSet []
      (jstr ("cap_color")) (JValue.str (pyStrip f1)))
      (jstr ("cpe_case")) (JValue.str (pyStrip f2)))
      (jstr ("sap_case")) (JValue.str (pyStrip f3)))
      (jstr ("customer_name")) (JValue.str (pyStrip f4)))
      (jstr ("synopsis")) (JValue.str (pyStrip f5))
  | none => []

/-- The CAP-line and numbered sections of `_parse_initial_analysis_sections`. -/
def init_sections_nums (text : List Char) : Dict :=
  initPatternTable.foldl (initStep text) (init_cap_sections text)

/-- The overview fallback closing `_parse_initial_analysis_sections`. -/
def parse_initial_analysis_sections (text : List Char) : Dict :=
  if (findS (init_sections_nums text) ("people")).isNone &&
      (findS (init_sections_nums text) ("timeline")).isNone &&
      (findS (init_sections_nums text) ("technical_summary")).isNone then
    dictSet (init_sections_nums text) (jstr ("overview")) (JValue.str (pyStrip text))
  else init_sections_nums text

/-! ### The parser entry points -/

/-- `ResponseParser.create_fallback_analysis` (parsers.py lines 125-132). -/
def create_fallback_analysis (response_text : List Char) : Dict :=
  [ (jstr ("executive_summary"),
      jstr ("Analysis parsing failed. Please check the raw response.")),
    (jstr ("problem_statement"), jstr ("Unable to parse structured response")),
    (jstr ("raw_content"), JValue.str response_text),
    (jstr ("parsing_error"), JValue.bool true) ]

/-- `ResponseParser.parse_llm_response` (parsers.py lines 25-68).  The result is
the returned dictionary, or the message of the exception the call raises (a
non-mapping truthy decoded JSON value makes `result.update` raise). -/
def parse_llm_response (response_text : List Char) (analysis_type : String) :
    Except (List Char) Dict :=
  let result : Dict := [(jstr ("raw_response"), JValue.str response_text)]
  if analysis_type = "kt-analysis_prompt" then
    let afterJson : Except (List Char) Dict :=
      match extract_json response_text with
      | some j => if pyTruthy j then pyUpdateJ result j else .ok result
      | none => .ok result
    match afterJson with
    | .ok r1 => .ok (pyUpdate r1 (parse_kt_sections response_text))
    | .error e => .error e
  else if analysis_type = "formal_rca_prompt" then
    .ok (pyUpdate result (parse_formal_rca_sections response_text))
  else if analysis_type = "initial_analysis_prompt" then
    .ok (pyUpdate result (parse_initial_analysis_sections response_text))
  else
    match extract_json response_text with
    | some j => if pyTruthy j then pyUpdateJ result j else .ok result
    | none => .ok result

/-! ### Model of the completion orchestrator (client.py) -/

/-- The tail of `UnifiedLLMClient._get_provider_order`: put the configured
default first when it is truthy and available. -/
def orderWithDefault (providers : List String) (default_llm : Option String) : List String :=
  match default_llm with
  | some d => if d ≠ "" ∧ d ∈ providers then d :: providers.filter (fun q => q != d)
              else providers
  | none => providers

/-- `UnifiedLLMClient._get_provider_order` (client.py lines 224-245).
`providers` is the registry's key list in registration order. -/
def get_provider_order (providers : List String) (preferred : Option String)
    (default_llm : Option String) : List String :=
  if providers.isEmpty then []
  else
    match preferred with
    | some p => if p ≠ "" ∧ p ∈ providers then p :: providers.filter (fun q => q != p)
                else orderWithDefault providers default_llm
    | none => orderWithDefault providers default_llm

/-- Interpolation of the final error message of `generate_analysis`: Python
formats a missing last error as the string `None`. -/
def formatLastError : Option (List Char) → List Char
  | none => ("None").data
  | some e => e

/-- The provider loop of `UnifiedLLMClient.generate_analysis` (client.py lines
209-221): first success returns, failures update `last_error`, exhaustion
raises with the last error. -/
def genLoop (providers : List String) (behavior : String → Except (List Char) (List Char)) :
    List String → Option (List Char) → Except (List Char) (List Char)
  | [], last =>
    .error ((("All LLM providers failed. Last error: ").data) ++ formatLastError last)
  | p :: rest, last =>
    if p ∈ providers then
      match behavior p with
      | .ok r => .ok r
      | .error e => genLoop providers behavior rest (some e)
    else genLoop providers behavior rest last

/-- `UnifiedLLMClient.generate_analysis` (client.py lines 188-222), with each
provider's `generate_completion` abstracted as a return-or-raise outcome. -/
def generate_analysis (providers : List String)
    (behavior : String → Except (List Char) (List Char))
    (preferred default_llm : Option String) : Except (List Char) (List Char) :=
  genLoop providers behavior (get_provider_order providers preferred default_llm) none

/-! ### Inputs used by the concrete evaluations below -/

/-- The end-to-end formal-dialect example input of the specification: a JSON
object followed by a Timeline and a Root Cause heading. -/
def c6Input : List Char :=
  ("\x7b\"executive_summary\":\"ok\"\x7d### Timeline\nEvent A happened\n### Root Cause\nMisconfiguration").data

/-- A KT-dialect input whose embedded JSON object and whose KT section
extraction both produce a value for the field `recommendations`. -/
def c9Input : List Char :=
  ("\x7b\"recommendations\": \"from-json\"\x7d\n### RECOMMENDATIONS AND NEXT STEPS\nfrom-sections").data

/-! ### Dictionary lemmas -/

theorem jKeyEq_eq {a b : JValue} (h : jKeyEq a b = true) : a = b := by
  cases a <;> cases b <;>
    first
      | rfl
      | exact Bool.noConfusion h
      | (simp only [jKeyEq, beq_iff_eq] at h; exact congrArg _ h)
      | (simp only [jKeyEq, Bool.and_eq_true, beq_iff_eq] at h
         obtain ⟨h1, h2⟩ := h
         subst h1
         subst h2
         rfl)

theorem jKeyEq_true_refl {a b : JValue} (h : jKeyEq a b = true) : jKeyEq b b = true :=
  (jKeyEq_eq h) ▸ h

theorem jKeyEq_str_refl (s : List Char) : jKeyEq (JValue.str s) (JValue.str s) = true := by
  simp [jKeyEq]

theorem jKeyEq_false_of_ne {a b : JValue} (h : a ≠ b) : jKeyEq a b = false := by
  cases hk : jKeyEq a b
  · rfl
  · exact absurd (jKeyEq_eq hk) h

theorem dictFind_dictSet (d : Dict) (k0 v0 k : JValue) :
    dictFind (dictSet d k0 v0) k = if jKeyEq k0 k then some v0 else dictFind d k := by
  induction d with
  | nil => simp [dictSet, dictFind]
  | cons hd t ih =>
    obtain ⟨k1, v1⟩ := hd
    simp only [dictSet]
    by_cases h1 : jKeyEq k1 k0 = true
    · have hk : k1 = k0 := jKeyEq_eq h1
      subst hk
      simp only [h1, if_true, dictFind]
      by_cases h2 : jKeyEq k1 k = true
      · simp [h2]
      · simp [h2]
    · have h1f : jKeyEq k1 k0 = false := by
        cases h0 : jKeyEq k1 k0
        · rfl
        · exact absurd h0 h1
      simp only [h1f, Bool.false_eq_true, if_false, dictFind]
      by_cases h2 : jKeyEq k1 k = true
      · have hk : k1 = k := jKeyEq_eq h2
        have h0 : jKeyEq k0 k = false := by
          cases h3 : jKeyEq k0 k
          · rfl
          · have e : k0 = k := jKeyEq_eq h3
            have hcontra : jKeyEq k1 k0 = true := by
              rw [hk, e]
              exact jKeyEq_true_refl h3
            exact absurd hcontra h1
        simp [h2, h0]
      · simp [h2, ih]

theorem lookLast_eq_none_iff (ps : List (JValue × JValue)) (k : JValue) :
    lookLast ps k = none ↔ dictFind ps k = none := by
  induction ps with
  | nil => simp [lookLast, dictFind]
  | cons hd t ih =>
    obtain ⟨k0, v0⟩ := hd
    constructor
    · intro h
      simp only [lookLast] at h
      cases hl : lookLast t k with
      | some v => rw [hl] at h; exact Option.noConfusion h
      | none =>
        rw [hl] at h
        have hk : jKeyEq k0 k = false := by
          cases hk0 : jKeyEq k0 k
          · rfl
          · rw [hk0] at h; simp at h
        simp [dictFind, hk, ih.mp hl]
    · intro h
      simp only [dictFind] at h
      have hk : jKeyEq k0 k = false := by
        cases hk0 : jKeyEq k0 k
        · rfl
        · rw [hk0] at h; simp at h
      rw [hk] at h
      simp only [if_false, Bool.false_eq_true] at h
      simp [lookLast, ih.mpr h, hk]

theorem find_pyUpdate_none (d : Dict) (ps : List (JValue × JValue)) (k : JValue)
    (h : lookLast ps k = none) : dictFind (pyUpdate d ps) k = dictFind d k := by
  induction ps generalizing d with
  | nil => rfl
  | cons hd t ih =>
    obtain ⟨k0, v0⟩ := hd
    simp only [lookLast] at h
    cases hl : lookLast t k with
    | some v => rw [hl] at h; exact Option.noConfusion h
    | none =>
      rw [hl] at h
      have hk : jKeyEq k0 k = false := by
        cases hk0 : jKeyEq k0 k
        · rfl
        · rw [hk0] at h; simp at h
      show dictFind (pyUpdate (dictSet d k0 v0) t) k = dictFind d k
      rw [ih (dictSet d k0 v0) hl, dictFind_dictSet, hk]
      simp

theorem find_pyUpdate_some (d : Dict) (ps : List (JValue × JValue)) (k v : JValue)
    (h : lookLast ps k = some v) : dictFind (pyUpdate d ps) k = some v := by
  induction ps generalizing d v with
  | nil => exact Option.noConfusion h
  | cons hd t ih =>
    obtain ⟨k0, v0⟩ := hd
    simp only [lookLast] at h
    cases hl : lookLast t k with
    | some w =>
      rw [hl] at h
      have hw : w = v := by simpa using h
      exact ih (dictSet d k0 v0) v (hw ▸ hl)
    | none =>
      rw [hl] at h
      have hk : jKeyEq k0 k = true := by
        cases hk0 : jKeyEq k0 k
        · rw [hk0] at h; simp at h
        · rfl
      rw [hk] at h
      have hv : v0 = v := by simpa using h
      show dictFind (pyUpdate (dictSet d k0 v0) t) k = some v
      rw [find_pyUpdate_none (dictSet d k0 v0) t k hl, dictFind_dictSet, hk]
      simp [hv]

theorem jKeyEq_false_symm {a b : JValue} (h : jKeyEq a b = false) : jKeyEq b a = false := by
  cases hk : jKeyEq b a
  · rfl
  · have e : b = a := jKeyEq_eq hk
    have : jKeyEq a a = true := jKeyEq_true_refl hk
    rw [e] at h
    rw [this] at h
    exact h

theorem dictFind_some_mem {d : Dict} {k v : JValue} (h : dictFind d k = some v) :
    ∃ x ∈ d, jKeyEq x.1 k = true ∧ x.2 = v := by
  induction d with
  | nil => exact Option.noConfusion h
  | cons hd t ih =>
    obtain ⟨k0, v0⟩ := hd
    simp only [dictFind] at h
    by_cases hk : jKeyEq k0 k = true
    · rw [hk] at h
      simp only [if_true] at h
      exact ⟨(k0, v0), by simp, hk, by simpa using h⟩
    · have hkf : jKeyEq k0 k = false := by
        cases h0 : jKeyEq k0 k
        · rfl
        · exact absurd h0 hk
      rw [hkf] at h
      simp only [Bool.false_eq_true, if_false] at h
      obtain ⟨x, hx, h1, h2⟩ := ih h
      exact ⟨x, by simp [hx], h1, h2⟩

/-- Every entry of `dictSet d k v` either shares its key with an entry of `d`
or carries the key `k`. -/
theorem mem_dictSet {d : Dict} {k v : JValue} {x : JValue × JValue}
    (h : x ∈ dictSet d k v) : (∃ y ∈ d, x.1 = y.1) ∨ x.1 = k := by
  induction d with
  | nil =>
    simp only [dictSet, List.mem_singleton] at h
    right
    rw [h]
  | cons hd t ih =>
    obtain ⟨k1, v1⟩ := hd
    simp only [dictSet] at h
    by_cases h1 : jKeyEq k1 k = true
    · rw [h1] at h
      simp only [if_true, List.mem_cons] at h
      rcases h with h | h
      · left; exact ⟨(k1, v1), by simp, by rw [h]⟩
      · left; exact ⟨x, by simp [h], rfl⟩
    · have h1f : jKeyEq k1 k = false := by
        cases h0 : jKeyEq k1 k
        · rfl
        · exact absurd h0 h1
      rw [h1f] at h
      simp only [Bool.false_eq_true, if_false, List.mem_cons] at h
      rcases h with h | h
      · left; exact ⟨(k1, v1), by simp, by rw [h]⟩
      · rcases ih h with ⟨y, hy, he⟩ | he
        · left; exact ⟨y, by simp [hy], he⟩
        · right; exact he

/-- Pairwise distinctness of the keys of a dict (as Python guarantees). -/
def NodupKeys (d : Dict) : Prop := d.Pairwise fun a b => jKeyEq a.1 b.1 = false

theorem nodupKeys_dictSet {d : Dict} (h : NodupKeys d) (k v : JValue) :
    NodupKeys (dictSet d k v) := by
  induction d with
  | nil => simp [dictSet, NodupKeys]
  | cons hd t ih =>
    obtain ⟨k1, v1⟩ := hd
    have h1 := (List.pairwise_cons.mp h).1
    have h2 := (List.pairwise_cons.mp h).2
    simp only [dictSet]
    by_cases hk : jKeyEq k1 k = true
    · rw [hk]
      simp only [if_true]
      exact List.pairwise_cons.mpr ⟨h1, h2⟩
    · have hkf : jKeyEq k1 k = false := by
        cases h0 : jKeyEq k1 k
        · rfl
        · exact absurd h0 hk
      rw [hkf]
      simp only [Bool.false_eq_true, if_false]
      refine List.pairwise_cons.mpr ⟨?_, ih h2⟩
      intro x hx
      rcases mem_dictSet hx with ⟨y, hy, he⟩ | he
      · rw [he]
        exact h1 y hy
      · rw [he]
        exact hkf

theorem lookLast_eq_dictFind_of_nodup {ps : List (JValue × JValue)} (h : NodupKeys ps)
    (k : JValue) : lookLast ps k = dictFind ps k := by
  induction ps with
  | nil => rfl
  | cons hd t ih =>
    obtain ⟨k0, v0⟩ := hd
    have h1 := (List.pairwise_cons.mp h).1
    have h2 := (List.pairwise_cons.mp h).2
    simp only [lookLast, dictFind, ih h2]
    cases hf : dictFind t k with
    | some v =>
      obtain ⟨x, hx, hxk, _⟩ := dictFind_some_mem hf
      have h0 : jKeyEq k0 k = false := by
        cases h3 : jKeyEq k0 k
        · rfl
        · have e : k0 = k := jKeyEq_eq h3
          have e2 : x.1 = k := jKeyEq_eq hxk
          have : jKeyEq k0 x.1 = false := h1 x hx
          rw [e, e2] at this
          rw [jKeyEq_true_refl h3] at this
          exact Bool.noConfusion this
      rw [h0]
      simp
    | none => rfl

/-- Stepping a fold whose steps only assign keys different from `k` keeps `k`
absent. -/
theorem foldl_sets_find_none {α : Type} (step : Dict → α → Dict) (k : JValue) :
    ∀ l : List α,
      (∀ acc : Dict, ∀ e ∈ l, step acc e = acc ∨
        ∃ k0 v0, jKeyEq k0 k = false ∧ step acc e = dictSet acc k0 v0) →
      ∀ acc : Dict, dictFind acc k = none → dictFind (l.foldl step acc) k = none := by
  intro l
  induction l with
  | nil => intro _ acc h; exact h
  | cons e t ih =>
    intro hstep acc h
    have h2 : dictFind (step acc e) k = none := by
      rcases hstep acc e (List.mem_cons_self e t) with hs | ⟨k0, v0, hk0, hs⟩
      · rw [hs]; exact h
      · rw [hs, dictFind_dictSet, hk0]; simpa using h
    exact ih (fun acc2 e2 he2 => hstep acc2 e2 (List.mem_cons_of_mem e he2)) (step acc e) h2

/-- Stepping a fold whose steps are dict assignments preserves key
distinctness. -/
theorem foldl_sets_nodup {α : Type} (step : Dict → α → Dict) :
    ∀ l : List α,
      (∀ acc : Dict, ∀ e ∈ l, step acc e = acc ∨
        ∃ k0 v0, step acc e = dictSet acc k0 v0) →
      ∀ acc : Dict, NodupKeys acc → NodupKeys (l.foldl step acc) := by
  intro l
  induction l with
  | nil => intro _ acc h; exact h
  | cons e t ih =>
    intro hstep acc h
    have h2 : NodupKeys (step acc e) := by
      rcases hstep acc e (List.mem_cons_self e t) with hs | ⟨k0, v0, hs⟩
      · rw [hs]; exact h
      · rw [hs]; exact nodupKeys_dictSet h k0 v0
    exact ih (fun acc2 e2 he2 => hstep acc2 e2 (List.mem_cons_of_mem e he2)) (step acc e) h2

/-- Keys of a dict built by a fold of string-keyed assignments are strings. -/
def StrKeys (d : Dict) : Prop := ∀ x ∈ d, ∃ s, x.1 = JValue.str s

theorem strKeys_dictSet {d : Dict} (h : StrKeys d) (s : List Char) (v : JValue) :
    StrKeys (dictSet d (JValue.str s) v) := by
  intro x hx
  rcases mem_dictSet hx with ⟨y, hy, he⟩ | he
  · obtain ⟨s2, hs2⟩ := h y hy
    exact ⟨s2, he ▸ hs2⟩
  · exact ⟨s, he⟩

theorem strKeys_foldl {α : Type} (step : Dict → α → Dict) :
    ∀ l : List α,
      (∀ acc : Dict, ∀ e ∈ l, step acc e = acc ∨
        ∃ s v0, step acc e = dictSet acc (JValue.str s) v0) →
      ∀ acc : Dict, StrKeys acc → StrKeys (l.foldl step acc) := by
  intro l
  induction l with
  | nil => intro _ acc h; exact h
  | cons e t ih =>
    intro hstep acc h
    have h2 : StrKeys (step acc e) := by
      rcases hstep acc e (List.mem_cons_self e t) with hs | ⟨s, v0, hs⟩
      · rw [hs]; exact h
      · rw [hs]; exact strKeys_dictSet h s v0
    exact ih (fun acc2 e2 he2 => hstep acc2 e2 (List.mem_cons_of_mem e he2)) (step acc e) h2

theorem strKeys_pyUpdate {d : Dict} {ps : List (JValue × JValue)} (hd : StrKeys d)
    (hps : ∀ x ∈ ps, ∃ s, x.1 = JValue.str s) : StrKeys (pyUpdate d ps) := by
  induction ps generalizing d with
  | nil => exact hd
  | cons p t ih =>
    obtain ⟨k0, v0⟩ := p
    obtain ⟨s, hs⟩ := hps (k0, v0) (by simp)
    show StrKeys (pyUpdate (dictSet d k0 v0) t)
    refine ih ?_ (fun x hx => hps x (by simp [hx]))
    rw [show k0 = JValue.str s from hs]
    exact strKeys_dictSet hd s v0

/-! ### Keys produced by the section extractors -/

theorem headerKeyFor_vals {hd k : List Char} (h : headerKeyFor hd = some k) :
    k = ("incident_overview").data ∨ k = ("technical_analysis").data ∨
    k = ("risk_assessment").data ∨ k = ("mitigation_resolution").data ∨
    k = ("prevention").data := by
  simp only [headerKeyFor] at h
  split_ifs at h <;> simp_all

theorem formalStep_shape (text : List Char) (acc : Dict)
    (e : List Char × List (List (List Char)) × List Char) (he : e ∈ formalPatternTable) :
    formalStep text acc e = acc ∨
    ∃ s v0, jKeyEq (JValue.str s) (jstr ("raw_response")) = false ∧
      formalStep text acc e = dictSet acc (JValue.str s) v0 := by
  unfold formalStep
  cases hm : formalSection e.2.1 e.2.2 text with
  | none => left; rfl
  | some cap =>
    by_cases hc : (pyStrip cap).length > 10
    · right
      refine ⟨e.1, JValue.str (pyStrip cap), ?_, by simp [hc]⟩
      have hall : ∀ e2 ∈ formalPatternTable,
          jKeyEq (JValue.str e2.1) (jstr ("raw_response")) = false := by decide
      exact hall e he
    · left; simp [hc]

theorem ktStep_shape (text : List Char) (acc : Dict)
    (e : List Char × List Char × List (List Char)) (he : e ∈ ktPatternTable) :
    ktStep text acc e = acc ∨
    ∃ s v0, jKeyEq (JValue.str s) (jstr ("raw_response")) = false ∧
      ktStep text acc e = dictSet acc (JValue.str s) v0 := by
  unfold ktStep
  cases hm : ktSection e.2.1 e.2.2 text with
  | none => left; rfl
  | some cap =>
    by_cases hc : (pyStrip cap).isEmpty = true
    · left; simp [hc]
    · right
      refine ⟨e.1, JValue.str (pyStrip cap), ?_, by simp [hc]⟩
      have hall : ∀ e2 ∈ ktPatternTable,
          jKeyEq (JValue.str e2.1) (jstr ("raw_response")) = false := by decide
      exact hall e he

theorem initStep_shape (text : List Char) (acc : Dict)
    (e : List Char × List (List Char)) (he : e ∈ initPatternTable) :
    initStep text acc e = acc ∨
    ∃ s v0, jKeyEq (JValue.str s) (jstr ("raw_response")) = false ∧
      initStep text acc e = dictSet acc (JValue.str s) v0 := by
  unfold initStep
  cases hm : scanChunksCI e.2 text with
  | none => left; rfl
  | some rest =>
    by_cases hc : (pyStrip (numCapture rest)).isEmpty = true
    · left; simp [hc]
    · right
      refine ⟨e.1, JValue.str (pyStrip (numCapture rest)), ?_, by simp [hc]⟩
      have hall : ∀ e2 ∈ initPatternTable,
          jKeyEq (JValue.str e2.1) (jstr ("raw_response")) = false := by decide
      exact hall e he

theorem byHeadersStep_shape (acc : Dict) (sect : List Char) :
    byHeadersStep acc sect = acc ∨
    ∃ s v0, jKeyEq (JValue.str s) (jstr ("raw_response")) = false ∧
      byHeadersStep acc sect = dictSet acc (JValue.str s) v0 := by
  unfold byHeadersStep
  cases hl : pySplitNL sect with
  | nil => left; rfl
  | cons h rest =>
    cases hk : headerKeyFor (pyStrip h) with
    | none => left; simp [hk]
    | some k =>
      right
      refine ⟨k, JValue.str (pyStrip (joinNL rest)), ?_, by simp [hk]⟩
      rcases headerKeyFor_vals hk with h5 | h5 | h5 | h5 | h5 <;> subst h5 <;> decide

theorem find_runFormalPatterns_raw (t : List Char) :
    dictFind (runFormalPatterns t) (jstr ("raw_response")) = none := by
  refine foldl_sets_find_none (formalStep t) _ formalPatternTable ?_ [] rfl
  intro acc e he
  rcases formalStep_shape t acc e he with h | ⟨s, v0, hc, h⟩
  · exact Or.inl h
  · exact Or.inr ⟨JValue.str s, v0, hc, h⟩

theorem find_extract_by_headers_raw (t : List Char) :
    dictFind (extract_by_headers t) (jstr ("raw_response")) = none := by
  refine foldl_sets_find_none byHeadersStep _ _ ?_ [] rfl
  intro acc e _
  rcases byHeadersStep_shape acc e with h | ⟨s, v0, hc, h⟩
  · exact Or.inl h
  · exact Or.inr ⟨JValue.str s, v0, hc, h⟩

theorem find_formal_prefallback_raw (t : List Char) :
    dictFind (formal_sections_prefallback t) (jstr ("raw_response")) = none := by
  unfold formal_sections_prefallback
  by_cases hlen : (runFormalPatterns t).length < 3
  · simp only [hlen, if_true]
    have hbh := find_extract_by_headers_raw t
    rw [find_pyUpdate_none _ _ _ ((lookLast_eq_none_iff _ _).mpr hbh)]
    exact find_runFormalPatterns_raw t
  · simp only [hlen, if_false]
    exact find_runFormalPatterns_raw t

theorem find_parse_formal_raw (t : List Char) :
    dictFind (parse_formal_rca_sections t) (jstr ("raw_response")) = none := by
  unfold parse_formal_rca_sections
  by_cases he : (formal_sections_prefallback t).isEmpty = true
  · simp only [he, if_true]
    show (if jKeyEq (jstr ("executive_summary")) (jstr ("raw_response")) then
      some (JValue.str (pyStrip t)) else none) = none
    rw [show jKeyEq (jstr ("executive_summary")) (jstr ("raw_response")) = false from by decide]
    simp
  · simp only [he, if_false]
    exact find_formal_prefallback_raw t

theorem find_kt_base_raw (t : List Char) :
    dictFind (kt_sections_base t) (jstr ("raw_response")) = none := by
  refine foldl_sets_find_none (ktStep t) _ ktPatternTable ?_ [] rfl
  intro acc e he
  rcases ktStep_shape t acc e he with h | ⟨s, v0, hc, h⟩
  · exact Or.inl h
  · exact Or.inr ⟨JValue.str s, v0, hc, h⟩

theorem find_parse_kt_raw (t : List Char) :
    dictFind (parse_kt_sections t) (jstr ("raw_response")) = none := by
  unfold parse_kt_sections
  cases hfind : dictFind (kt_sections_base t) (jstr ("is_is_not_table")) with
  | none => exact find_kt_base_raw t
  | some v =>
    cases v with
    | str tb =>
      rw [dictFind_dictSet]
      have : jKeyEq (jstr ("is_is_not_table")) (jstr ("raw_response")) = false := by decide
      rw [this]
      simpa using find_kt_base_raw t
    | null => exact find_kt_base_raw t
    | bool b => exact find_kt_base_raw t
    | num m e => exact find_kt_base_raw t
    | arr a => exact find_kt_base_raw t
    | obj o => exact find_kt_base_raw t

theorem find_init_cap_raw (t : List Char) :
    dictFind (init_cap_sections t) (jstr ("raw_response")) = none := by
  unfold init_cap_sections
  cases hc : capScan t with
  | none => rfl
  | some r =>
    obtain ⟨f1, f2, f3, f4, f5⟩ := r
    simp only [dictFind_dictSet]
    norm_num [show jKeyEq (jstr ("cap_color")) (jstr ("raw_response")) = false by decide,
      show jKeyEq (jstr ("cpe_case")) (jstr ("raw_response")) = false by decide,
      show jKeyEq (jstr ("sap_case")) (jstr ("raw_response")) = false by decide,
      show jKeyEq (jstr ("customer_name")) (jstr ("raw_response")) = false by decide,
      show jKeyEq (jstr ("synopsis")) (jstr ("raw_response")) = false by decide]
    rfl

theorem find_init_nums_raw (t : List Char) :
    dictFind (init_sections_nums t) (jstr ("raw_response")) = none := by
  refine foldl_sets_find_none (initStep t) _ initPatternTable ?_ _ (find_init_cap_raw t)
  intro acc e he
  rcases initStep_shape t acc e he with h | ⟨s, v0, hc, h⟩
  · exact Or.inl h
  · exact Or.inr ⟨JValue.str s, v0, hc, h⟩

theorem find_parse_init_raw (t : List Char) :
    dictFind (parse_initial_analysis_sections t) (jstr ("raw_response")) = none := by
  unfold parse_initial_analysis_sections
  by_cases hc : ((findS (init_sections_nums t) ("people")).isNone &&
      (findS (init_sections_nums t) ("timeline")).isNone &&
      (findS (init_sections_nums t) ("technical_summary")).isNone) = true
  · simp only [hc, if_true]
    rw [dictFind_dictSet]
    have : jKeyEq (jstr ("overview")) (jstr ("raw_response")) = false := by decide
    rw [this]
    simpa using find_init_nums_raw t
  · simp only [hc, if_false]
    exact find_init_nums_raw t

/-! ### Lemmas about the brace-span extraction -/

theorem firstBraceSplit_append {p1 : List Char} (h : lbraceChar ∉ p1) (l : List Char) :
    firstBraceSplit (p1 ++ l) = firstBraceSplit l := by
  induction p1 with
  | nil => rfl
  | cons c t ih =>
    have hc : c ≠ lbraceChar := fun hcc => h (by simp [hcc])
    have ht : lbraceChar ∉ t := fun htt => h (by simp [htt])
    simp only [List.cons_append, firstBraceSplit]
    rw [if_neg (by simpa using hc)]
    exact ih ht

theorem takeToLastClose_of_no_close {p : List Char} (h : rbraceChar ∉ p) :
    takeToLastClose p = none := by
  induction p with
  | nil => rfl
  | cons c t ih =>
    have hc : c ≠ rbraceChar := fun hcc => h (by simp [hcc])
    have ht : rbraceChar ∉ t := fun htt => h (by simp [htt])
    simp only [takeToLastClose, ih ht]
    rw [if_neg (by simpa using hc)]

theorem takeToLastClose_append {p2 : List Char} (h : takeToLastClose p2 = none) :
    ∀ a : List Char, takeToLastClose (a ++ rbraceChar :: p2) = some (a ++ [rbraceChar]) := by
  intro a
  induction a with
  | nil =>
    simp only [List.nil_append, takeToLastClose, h]
    simp
  | cons c t ih =>
    simp only [List.cons_append, takeToLastClose, List.append_eq, ih]

/-! ### Line-level lemmas for the markdown table cleaner -/

theorem hasPfx_one_append {c : Char} {l : List Char} (h : hasPfx [c] l = true)
    (r : List Char) : hasPfx [c] (l ++ r) = true := by
  cases l with
  | nil => exact Bool.noConfusion h
  | cons b t =>
    simp only [hasPfx, Bool.and_eq_true] at h
    simp [List.cons_append, hasPfx, h.1]

theorem padLeadSep_start (l : List Char) : hasPfx (("|").data) (padLeadSep l) = true := by
  unfold padLeadSep
  by_cases hsw : hasPfx (("|").data) l = true
  · rw [if_pos hsw]; exact hsw
  · rw [if_neg hsw]; rfl

theorem padLeadSep_ne_nil (l : List Char) : padLeadSep l ≠ [] := by
  unfold padLeadSep
  by_cases hsw : hasPfx (("|").data) l = true
  · rw [if_pos hsw]
    cases l with
    | nil => exact Bool.noConfusion hsw
    | cons c t => simp
  · rw [if_neg hsw]; simp

theorem padTrailSep_end {l : List Char} (h : l ≠ []) :
    (padTrailSep l).getLast? = some '|' := by
  unfold padTrailSep
  by_cases hend : (l.getLastD ' ' == '|') = true
  · rw [if_pos hend]
    have he : l.getLastD ' ' = '|' := by simpa using hend
    rw [List.getLastD_eq_getLast?] at he
    cases hg : l.getLast? with
    | none => exact absurd (List.getLast?_eq_none_iff.mp hg) h
    | some c =>
      rw [hg] at he
      simp only [Option.getD_some] at he
      rw [he]
  · rw [if_neg hend]
    show (l ++ [' ', '|']).getLast? = some '|'
    rw [show l ++ [' ', '|'] = (l ++ [' ']) ++ ['|'] by simp]
    exact List.getLast?_concat _

theorem padTrailSep_keeps_start {l : List Char} (h : hasPfx (("|").data) l = true) :
    hasPfx (("|").data) (padTrailSep l) = true := by
  unfold padTrailSep
  by_cases hend : (l.getLastD ' ' == '|') = true
  · rw [if_pos hend]; exact h
  · rw [if_neg hend]; exact hasPfx_one_append h _

theorem cleanTableLine_pipe {line : List Char} (hne : pyStrip line ≠ [])
    (hp : (pyStrip line).contains '|' = true) :
    cleanTableLine line = some (padTrailSep (padLeadSep (pyStrip line))) ∧
      hasPfx (("|").data) (padTrailSep (padLeadSep (pyStrip line))) = true ∧
      (padTrailSep (padLeadSep (pyStrip line))).getLast? = some '|' := by
  have hni : (pyStrip line).isEmpty = false := by
    cases hl : pyStrip line
    · exact absurd hl hne
    · rfl
  refine ⟨?_, padTrailSep_keeps_start (padLeadSep_start _), padTrailSep_end (padLeadSep_ne_nil _)⟩
  unfold cleanTableLine
  have c1 : (!(pyStrip line).isEmpty && (pyStrip line).contains '|') = true := by
    rw [hni, hp]; rfl
  simp only [c1, if_true]

theorem cleanTableLine_dash {line : List Char} (hne : pyStrip line ≠ [])
    (hp : (pyStrip line).contains '|' = false)
    (hd : hasPfx (("-").data) (pyStrip line) = true) :
    cleanTableLine line = none := by
  have hni : (pyStrip line).isEmpty = false := by
    cases hl : pyStrip line
    · exact absurd hl hne
    · rfl
  unfold cleanTableLine
  have c1 : (!(pyStrip line).isEmpty && (pyStrip line).contains '|') = false := by
    rw [hni, hp]; rfl
  have c2 : (!(pyStrip line).isEmpty && !hasPfx (("-").data) (pyStrip line)) = false := by
    rw [hni, hd]; rfl
  simp only [c1, c2, Bool.false_eq_true, if_false]

theorem cleanTableLine_plain {line : List Char} (hne : pyStrip line ≠ [])
    (hp : (pyStrip line).contains '|' = false)
    (hd : hasPfx (("-").data) (pyStrip line) = false) :
    cleanTableLine line = some (pyStrip line) := by
  have hni : (pyStrip line).isEmpty = false := by
    cases hl : pyStrip line
    · exact absurd hl hne
    · rfl
  unfold cleanTableLine
  have c1 : (!(pyStrip line).isEmpty && (pyStrip line).contains '|') = false := by
    rw [hni, hp]; rfl
  have c2 : (!(pyStrip line).isEmpty && !hasPfx (("-").data) (pyStrip line)) = true := by
    rw [hni, hd]; rfl
  simp only [c1, c2, Bool.false_eq_true, if_false, if_true]

/-! ### Key distinctness and string-keyedness of the section extractors -/

theorem nodup_kt_base (t : List Char) : NodupKeys (kt_sections_base t) := by
  refine foldl_sets_nodup (ktStep t) ktPatternTable ?_ [] List.Pairwise.nil
  intro acc e he
  rcases ktStep_shape t acc e he with h | ⟨s, v0, _, h⟩
  · exact Or.inl h
  · exact Or.inr ⟨JValue.str s, v0, h⟩

theorem nodup_parse_kt (t : List Char) : NodupKeys (parse_kt_sections t) := by
  unfold parse_kt_sections
  cases hfind : dictFind (kt_sections_base t) (jstr ("is_is_not_table")) with
  | none => exact nodup_kt_base t
  | some v =>
    cases v with
    | str tb => exact nodupKeys_dictSet (nodup_kt_base t) _ _
    | null => exact nodup_kt_base t
    | bool b => exact nodup_kt_base t
    | num m e => exact nodup_kt_base t
    | arr a => exact nodup_kt_base t
    | obj o => exact nodup_kt_base t

theorem strKeys_runFormalPatterns (t : List Char) : StrKeys (runFormalPatterns t) := by
  refine strKeys_foldl (formalStep t) formalPatternTable ?_ [] (by intro x hx; cases hx)
  intro acc e he
  rcases formalStep_shape t acc e he with h | ⟨s, v0, _, h⟩
  · exact Or.inl h
  · exact Or.inr ⟨s, v0, h⟩

theorem strKeys_extract_by_headers (t : List Char) : StrKeys (extract_by_headers t) := by
  refine strKeys_foldl byHeadersStep _ ?_ [] (by intro x hx; cases hx)
  intro acc e _
  rcases byHeadersStep_shape acc e with h | ⟨s, v0, _, h⟩
  · exact Or.inl h
  · exact Or.inr ⟨s, v0, h⟩

theorem strKeys_formal_prefallback (t : List Char) : StrKeys (formal_sections_prefallback t) := by
  unfold formal_sections_prefallback
  by_cases hlen : (runFormalPatterns t).length < 3
  · simp only [hlen, if_true]
    exact strKeys_pyUpdate (strKeys_runFormalPatterns t) (strKeys_extract_by_headers t)
  · simp only [hlen, if_false]
    exact strKeys_runFormalPatterns t

/-! ### Orchestrator lemmas -/

theorem nodup_cons_filter {p : String} {providers : List String} (h : providers.Nodup) :
    (p :: providers.filter (fun q => q != p)).Nodup := by
  refine List.nodup_cons.mpr ⟨?_, h.filter _⟩
  intro hmem
  have := List.of_mem_filter hmem
  simp at this

theorem mem_orderWithDefault {providers : List String} {default_llm : Option String}
    {q : String} (h : q ∈ orderWithDefault providers default_llm) : q ∈ providers := by
  unfold orderWithDefault at h
  cases default_llm with
  | some d =>
    dsimp only at h
    by_cases hd : d ≠ "" ∧ d ∈ providers
    · rw [if_pos hd] at h
      rcases List.mem_cons.mp h with h1 | h1
      · exact h1 ▸ hd.2
      · exact List.mem_of_mem_filter h1
    · rw [if_neg hd] at h
      exact h
  | none => exact h

theorem mem_get_provider_order {providers : List String} {preferred default_llm : Option String}
    {q : String} (h : q ∈ get_provider_order providers preferred default_llm) :
    q ∈ providers := by
  unfold get_provider_order at h
  by_cases he : providers.isEmpty = true
  · rw [if_pos he] at h
    simp at h
  · rw [if_neg he] at h
    cases preferred with
    | some p =>
      dsimp only at h
      by_cases hc : p ≠ "" ∧ p ∈ providers
      · rw [if_pos hc] at h
        rcases List.mem_cons.mp h with h1 | h1
        · exact h1 ▸ hc.2
        · exact List.mem_of_mem_filter h1
      · rw [if_neg hc] at h
        exact mem_orderWithDefault h
    | none => exact mem_orderWithDefault h

theorem genLoop_all_fail (providers : List String)
    (behavior : String → Except (List Char) (List Char)) (err : String → List Char) :
    ∀ (order : List String) (last0 : Option (List Char)), order ≠ [] →
      (∀ q ∈ order, q ∈ providers) → (∀ q ∈ order, behavior q = .error (err q)) →
      genLoop providers behavior order last0 =
        .error ((("All LLM providers failed. Last error: ").data) ++ err (order.getLastD "")) := by
  intro order
  induction order with
  | nil => intro l0 hne; exact absurd rfl hne
  | cons p rest ih =>
    intro last0 _ hmem hfail
    have hp : p ∈ providers := hmem p (by simp)
    simp only [genLoop]
    rw [if_pos hp, hfail p (by simp)]
    cases rest with
    | nil => simp [genLoop, formatLastError]
    | cons r2 t2 =>
      dsimp only
      rw [ih (some (err p)) (by simp) (fun q hq => hmem q (by simp [hq]))
        (fun q hq => hfail q (by simp [hq]))]
      rfl

theorem genLoop_first_success (providers : List String)
    (behavior : String → Except (List Char) (List Char)) :
    ∀ (l1 : List String) (p : String) (l2 : List String) (last0 : Option (List Char))
      (r : List Char),
      (∀ q ∈ l1, q ∈ providers → ∃ e, behavior q = .error e) →
      p ∈ providers → behavior p = .ok r →
      genLoop providers behavior (l1 ++ p :: l2) last0 = .ok r := by
  intro l1
  induction l1 with
  | nil =>
    intro p l2 last0 r _ hp hok
    simp only [List.nil_append, genLoop]
    rw [if_pos hp, hok]
  | cons q t ih =>
    intro p l2 last0 r hfail hp hok
    simp only [List.cons_append, genLoop]
    by_cases hq : q ∈ providers
    · rw [if_pos hq]
      obtain ⟨e, he⟩ := hfail q (by simp) hq
      rw [he]
      exact ih p l2 (some e) r (fun q2 hq2 hq2p => hfail q2 (by simp [hq2]) hq2p) hp hok
    · rw [if_neg hq]
      exact ih p l2 last0 r (fun q2 hq2 hq2p => hfail q2 (by simp [hq2]) hq2p) hp hok

/-! ### The claims -/

/-- Claim C1 (code bug).  The claim states that `parse_llm_response` returns a
dictionary and never raises, for every input and analysis type.  The code
violates this: on input `3` under the default type, `json.loads` returns the
truthy integer 3, and `result.update(3)` raises `TypeError`.  This theorem
evaluates the embedded parser at that failing input. -/
theorem c1_totality_failure :
    parse_llm_response (("3").data) "standard" =
      .error (("TypeError: update argument is not iterable").data) := rfl

/-- Claim C2, counterexample.  When the whole input is a JSON object that maps
`raw_response` to `x`, the merged structured fields overwrite the stored raw
response: the parse result maps `raw_response` to `x`, not to the input text. -/
theorem c2_raw_response_counterexample :
    parse_llm_response (("\x7b\"raw_response\": \"x\"\x7d").data) "standard" =
      .ok [(jstr ("raw_response"), jstr ("x"))] ∧
    jstr ("x") ≠ JValue.str (("\x7b\"raw_response\": \"x\"\x7d").data) := by
  refine ⟨rfl, ?_⟩
  intro hcontra
  injection hcontra with h2
  exact absurd h2 (by decide)

/-- Claim C3 (confirmed).  Provider ordering: a truthy available preferred
provider goes first, else a truthy available configured default goes first,
else the registration order is returned unchanged; the remainder keeps
registration order with the promoted provider removed, and the resulting order
never repeats a provider. -/
theorem c3_provider_order (providers : List String) (preferred default_llm : Option String)
    (h : providers.Nodup) :
    (∀ p, preferred = some p → p ≠ "" → p ∈ providers →
      get_provider_order providers preferred default_llm =
        p :: providers.filter (fun q => q != p)) ∧
    ((∀ p, preferred = some p → p = "" ∨ p ∉ providers) →
      ∀ d, default_llm = some d → d ≠ "" → d ∈ providers →
        get_provider_order providers preferred default_llm =
          d :: providers.filter (fun q => q != d)) ∧
    ((∀ p, preferred = some p → p = "" ∨ p ∉ providers) →
      (∀ d, default_llm = some d → d = "" ∨ d ∉ providers) →
      get_provider_order providers preferred default_llm = providers) ∧
    (get_provider_order providers preferred default_llm).Nodup := by
  refine ⟨?_, ?_, ?_, ?_⟩
  · intro p hp hne hmem
    subst hp
    have hnonE : providers.isEmpty = false := by
      cases providers
      · simp at hmem
      · rfl
    unfold get_provider_order
    rw [hnonE]
    simp only [Bool.false_eq_true, if_false]
    rw [if_pos ⟨hne, hmem⟩]
  · intro hpref d hd hne hmem
    subst hd
    have hnonE : providers.isEmpty = false := by
      cases providers
      · simp at hmem
      · rfl
    unfold get_provider_order orderWithDefault
    rw [hnonE]
    simp only [Bool.false_eq_true, if_false]
    cases preferred with
    | some p =>
      dsimp only
      rcases hpref p rfl with he | hni
      · rw [if_neg (by simp [he])]
        show (if d ≠ "" ∧ d ∈ providers then d :: providers.filter (fun q => q != d)
          else providers) = _
        rw [if_pos ⟨hne, hmem⟩]
      · rw [if_neg (by simp [hni])]
        show (if d ≠ "" ∧ d ∈ providers then d :: providers.filter (fun q => q != d)
          else providers) = _
        rw [if_pos ⟨hne, hmem⟩]
    | none =>
      show (if d ≠ "" ∧ d ∈ providers then d :: providers.filter (fun q => q != d)
        else providers) = _
      rw [if_pos ⟨hne, hmem⟩]
  · intro hpref hdef
    by_cases he : providers.isEmpty = true
    · unfold get_provider_order
      rw [if_pos he]
      cases providers with
      | nil => rfl
      | cons c t => exact Bool.noConfusion he
    · unfold get_provider_order orderWithDefault
      rw [if_neg he]
      have hdc : ∀ d, default_llm = some d → ¬ (d ≠ "" ∧ d ∈ providers) := by
        intro d hd
        rcases hdef d hd with hde | hdni
        · simp [hde]
        · simp [hdni]
      cases preferred with
      | some p =>
        dsimp only
        have hc : ¬ (p ≠ "" ∧ p ∈ providers) := by
          rcases hpref p rfl with hpe | hpni
          · simp [hpe]
          · simp [hpni]
        rw [if_neg hc]
        cases default_llm with
        | some d =>
          dsimp only
          rw [if_neg (hdc d rfl)]
        | none => rfl
      | none =>
        cases default_llm with
        | some d =>
          dsimp only
          rw [if_neg (hdc d rfl)]
        | none => rfl
  · unfold get_provider_order orderWithDefault
    by_cases he : providers.isEmpty = true
    · rw [if_pos he]
      exact List.nodup_nil
    · rw [if_neg he]
      cases preferred with
      | some p =>
        dsimp only
        by_cases hp : p ≠ "" ∧ p ∈ providers
        · rw [if_pos hp]
          exact nodup_cons_filter h
        · rw [if_neg hp]
          cases default_llm with
          | some d =>
            dsimp only
            by_cases hd : d ≠ "" ∧ d ∈ providers
            · rw [if_pos hd]
              exact nodup_cons_filter h
            · rw [if_neg hd]
              exact h
          | none => exact h
      | none =>
        cases default_llm with
        | some d =>
          dsimp only
          by_cases hd : d ≠ "" ∧ d ∈ providers
          · rw [if_pos hd]
            exact nodup_cons_filter h
          · rw [if_neg hd]
            exact h
        | none => exact h

/-- Witness for C3 at a concrete three-provider registry. -/
theorem c3_provider_order_witness :
    (["openai", "anthropic", "openrouter"] : List String).Nodup ∧
    get_provider_order ["openai", "anthropic", "openrouter"] (some "anthropic") (some "openai") =
      ["anthropic", "openai", "openrouter"] ∧
    get_provider_order ["openai", "anthropic", "openrouter"] none (some "openrouter") =
      ["openrouter", "openai", "anthropic"] ∧
    get_provider_order ["openai", "anthropic", "openrouter"] (some "missing") none =
      ["openai", "anthropic", "openrouter"] := by
  have hnd : (["openai", "anthropic", "openrouter"] : List String).Nodup := by decide
  refine ⟨hnd, ?_, ?_, ?_⟩
  · rw [(c3_provider_order ["openai", "anthropic", "openrouter"] (some "anthropic")
      (some "openai") hnd).1 "anthropic" rfl (by decide) (by decide)]
    rfl
  · rw [(c3_provider_order ["openai", "anthropic", "openrouter"] none
      (some "openrouter") hnd).2.1 (fun p hp => Option.noConfusion hp) "openrouter" rfl
      (by decide) (by decide)]
    rfl
  · rw [(c3_provider_order ["openai", "anthropic", "openrouter"] (some "missing") none
      hnd).2.2.1 ?_ ?_]
    · intro p hp
      right
      rw [show p = "missing" from by injection hp with h2; exact h2.symm]
      decide
    · intro d hd
      exact Option.noConfusion hd

/-- Claim C4 (confirmed).  The orchestrator returns the output of the first
provider in the attempt order that succeeds, attempting none after it, and
when every provider in the attempt order fails it raises one aggregate error
carrying the error text of the last attempted provider. -/
theorem c4_first_success_last_error (providers : List String)
    (behavior : String → Except (List Char) (List Char))
    (preferred default_llm : Option String) :
    (∀ l1 p l2 r, get_provider_order providers preferred default_llm = l1 ++ p :: l2 →
      (∀ q ∈ l1, ∃ e, behavior q = .error e) →
      behavior p = .ok r →
      generate_analysis providers behavior preferred default_llm = .ok r) ∧
    (∀ err : String → List Char,
      get_provider_order providers preferred default_llm ≠ [] →
      (∀ q ∈ get_provider_order providers preferred default_llm, behavior q = .error (err q)) →
      generate_analysis providers behavior preferred default_llm =
        .error ((("All LLM providers failed. Last error: ").data) ++
          err ((get_provider_order providers preferred default_llm).getLastD ""))) := by
  constructor
  · intro l1 p l2 r horder hfail hok
    unfold generate_analysis
    rw [horder]
    refine genLoop_first_success providers behavior l1 p l2 none r ?_ ?_ hok
    · intro q hq _
      exact hfail q hq
    · refine @mem_get_provider_order providers preferred default_llm p ?_
      rw [horder]
      simp
  · intro err hne hfail
    unfold generate_analysis
    exact genLoop_all_fail providers behavior err _ none hne
      (fun q hq => mem_get_provider_order hq) hfail

/-- Witness for C4: a three-provider registry where the first two fail and the
third succeeds, and one where all three fail. -/
theorem c4_first_success_last_error_witness :
    (fun p => if p = "openrouter" then (.ok (("result3").data) :
        Except (List Char) (List Char)) else .error ((p ++ "-err").data)) "openrouter" =
      .ok (("result3").data) ∧
    generate_analysis ["openai", "anthropic", "openrouter"]
      (fun p => if p = "openrouter" then .ok (("result3").data)
                else .error ((p ++ "-err").data)) none none = .ok (("result3").data) ∧
    generate_analysis ["openai", "anthropic", "openrouter"]
      (fun p => .error ((p ++ "-err").data)) none none =
      .error ((("All LLM providers failed. Last error: ").data) ++ ("openrouter-err").data) := by
  refine ⟨rfl, ?_, ?_⟩
  · exact (c4_first_success_last_error ["openai", "anthropic", "openrouter"]
      (fun p => if p = "openrouter" then .ok (("result3").data)
                else .error ((p ++ "-err").data)) none none).1
      ["openai", "anthropic"] "openrouter" [] (("result3").data) rfl
      (by
        intro q hq
        fin_cases hq
        · exact ⟨("openai-err").data, rfl⟩
        · exact ⟨("anthropic-err").data, rfl⟩)
      rfl
  · have := (c4_first_success_last_error ["openai", "anthropic", "openrouter"]
      (fun p => .error ((p ++ "-err").data)) none none).2
      (fun p => (p ++ "-err").data) (by decide) (fun q _ => rfl)
    rw [this]
    rfl

/-- Claim C5 (corrected).  When JSON extraction yields nothing under the
default analysis type, `parse_llm_response` returns a record holding only
`raw_response` — it never synthesizes a fallback.  The fallback structure
lives in the separate, never-invoked `create_fallback_analysis`, which flags
`parsing_error` and stores the full, untruncated text under `raw_content`. -/
theorem c5_parse_no_fallback (text : List Char) (h : extract_json text = none) :
    parse_llm_response text "standard" = .ok [(jstr ("raw_response"), JValue.str text)] ∧
    findS (create_fallback_analysis text) ("raw_content") = some (JValue.str text) ∧
    findS (create_fallback_analysis text) ("parsing_error") = some (JValue.bool true) := by
  refine ⟨?_, rfl, rfl⟩
  unfold parse_llm_response
  rw [if_neg (by decide), if_neg (by decide), if_neg (by decide), h]

/-- Claim C5, counterexample.  On an input where nothing can be extracted, the
parse result is the bare raw-response record: no placeholder summary, no
`parsing_error` flag, no `raw_content` preview. -/
theorem c5_fallback_counterexample :
    parse_llm_response (("noise").data) "standard" =
      .ok [(jstr ("raw_response"), jstr ("noise"))] ∧
    findS [(jstr ("raw_response"), jstr ("noise"))] ("parsing_error") = none ∧
    findS [(jstr ("raw_response"), jstr ("noise"))] ("raw_content") = none ∧
    findS [(jstr ("raw_response"), jstr ("noise"))] ("executive_summary") = none :=
  ⟨rfl, rfl, rfl, rfl⟩

/-- Witness for C5 at a concrete extraction-free input. -/
theorem c5_parse_no_fallback_witness :
    extract_json (("pure prose with no json").data) = none ∧
    parse_llm_response (("pure prose with no json").data) "standard" =
      .ok [(jstr ("raw_response"), jstr ("pure prose with no json"))] := by
  refine ⟨rfl, ?_⟩
  exact (c5_parse_no_fallback (("pure prose with no json").data) rfl).1

/-- Claim C6 (corrected).  On the specification's end-to-end formal example the
parser recognizes no section at all: the formal patterns require lettered
headers such as `### A. Timeline`, the example's bare `### Timeline` and
`### Root Cause` match nothing, the formal branch never extracts JSON, and so
the whole input lands in `executive_summary` with `raw_response` verbatim. -/
theorem c6_formal_example_actual :
    parse_llm_response c6Input "formal_rca_prompt" =
      .ok [(jstr ("raw_response"), JValue.str c6Input),
           (jstr ("executive_summary"), JValue.str c6Input)] := rfl

/-- Claim C6, counterexample.  The claimed fields are absent or wrong on the
example input: no `timeline`, no `root_cause`, and `executive_summary` is not
the JSON value `ok`. -/
theorem c6_formal_example_counterexample :
    parse_llm_response c6Input "formal_rca_prompt" =
      .ok [(jstr ("raw_response"), JValue.str c6Input),
           (jstr ("executive_summary"), JValue.str c6Input)] ∧
    findS [(jstr ("raw_response"), JValue.str c6Input),
           (jstr ("executive_summary"), JValue.str c6Input)] ("timeline") = none ∧
    findS [(jstr ("raw_response"), JValue.str c6Input),
           (jstr ("executive_summary"), JValue.str c6Input)] ("root_cause") = none ∧
    findS [(jstr ("raw_response"), JValue.str c6Input),
           (jstr ("executive_summary"), JValue.str c6Input)] ("executive_summary") ≠
      some (jstr ("ok")) := by
  refine ⟨rfl, rfl, rfl, ?_⟩
  intro hc
  have h2 : some (JValue.str c6Input) = some (jstr ("ok")) := by
    rw [← hc]
    rfl
  have h3 : JValue.str c6Input = jstr ("ok") := Option.some.inj h2
  injection h3 with h4
  exact absurd h4 (by decide)

/-- Claim C7 (corrected).  The embedded-object extraction takes the span from
the first opening brace to the last closing brace (greedy match), so it is
prose-invariant only when the leading prose contains no opening brace, the
trailing prose contains no closing brace, and the combined text is not itself
decodable: then the extraction equals decoding the object in isolation. -/
theorem c7_extract_json_prose (p1 p2 mid : List Char) (v : JValue)
    (h1 : lbraceChar ∉ p1) (h2 : rbraceChar ∉ p2)
    (hv : loads (lbraceChar :: mid ++ [rbraceChar]) = some v)
    (hfull : loads (p1 ++ (lbraceChar :: mid ++ [rbraceChar]) ++ p2) = none) :
    extract_json (p1 ++ (lbraceChar :: mid ++ [rbraceChar]) ++ p2) = some v := by
  unfold extract_json
  rw [hfull]
  have hspan : braceSpan (p1 ++ (lbraceChar :: mid ++ [rbraceChar]) ++ p2) =
      some (lbraceChar :: mid ++ [rbraceChar]) := by
    unfold braceSpan
    rw [List.append_assoc, firstBraceSplit_append h1]
    have hfb : firstBraceSplit ((lbraceChar :: mid ++ [rbraceChar]) ++ p2) =
        some ((lbraceChar :: mid ++ [rbraceChar]) ++ p2) := by
      simp only [List.cons_append, firstBraceSplit]
      rw [if_pos (by simp)]
      rfl
    rw [hfb]
    show takeToLastClose ((lbraceChar :: mid ++ [rbraceChar]) ++ p2) = _
    rw [show (lbraceChar :: mid ++ [rbraceChar]) ++ p2 =
      (lbraceChar :: mid) ++ (rbraceChar :: p2) by simp]
    rw [takeToLastClose_append (takeToLastClose_of_no_close h2) (lbraceChar :: mid)]
  rw [hspan]
  show loads (lbraceChar :: mid ++ [rbraceChar]) = some v
  exact hv

/-- Claim C7, counterexample.  A stray closing brace after the object makes the
greedy span unparseable and the extraction returns nothing, although the object
in isolation decodes fine — so the extraction is not prose-invariant and does
not locate the first balanced span. -/
theorem c7_extract_json_counterexample :
    extract_json (("x \x7b\"a\": 1\x7d y \x7d").data) = none ∧
    extract_json (("\x7b\"a\": 1\x7d").data) =
      some (JValue.obj [(("a").data, JValue.num 1 0)]) := ⟨rfl, rfl⟩

/-- Witness for C7 with concrete brace-free prose around a concrete object. -/
theorem c7_extract_json_prose_witness :
    lbraceChar ∉ ("see ").data ∧ rbraceChar ∉ (" end").data ∧
    loads (lbraceChar :: ("\"a\": 1").data ++ [rbraceChar]) =
      some (JValue.obj [(("a").data, JValue.num 1 0)]) ∧
    extract_json (("see ").data ++ (lbraceChar :: ("\"a\": 1").data ++ [rbraceChar]) ++
        (" end").data) = some (JValue.obj [(("a").data, JValue.num 1 0)]) := by
  refine ⟨by decide, by decide, rfl, ?_⟩
  exact c7_extract_json_prose (("see ").data) ((" end").data) (("\"a\": 1").data)
    (JValue.obj [(("a").data, JValue.num 1 0)]) (by decide) (by decide) rfl rfl

/-- Claim C8 (corrected).  Table cleanup normalizes every non-blank line that
contains the column separator to begin and end with it — including pure
divider lines such as `---|---`, which are kept in normalized form, not
dropped; only separator-free lines starting with a dash are dropped; all other
non-blank lines pass through stripped.  On the mixed example the divider line
therefore survives as `| ---|--- |`. -/
theorem c8_table_clean :
    clean_markdown_table (("  a | b  \n---|---\nplain text").data) =
      ("| a | b |\n| ---|--- |\nplain text").data ∧
    (∀ line : List Char, pyStrip line ≠ [] → (pyStrip line).contains '|' = true →
      cleanTableLine line = some (padTrailSep (padLeadSep (pyStrip line))) ∧
      hasPfx (("|").data) (padTrailSep (padLeadSep (pyStrip line))) = true ∧
      (padTrailSep (padLeadSep (pyStrip line))).getLast? = some '|') ∧
    (∀ line : List Char, pyStrip line ≠ [] → (pyStrip line).contains '|' = false →
      hasPfx (("-").data) (pyStrip line) = true → cleanTableLine line = none) ∧
    (∀ line : List Char, pyStrip line ≠ [] → (pyStrip line).contains '|' = false →
      hasPfx (("-").data) (pyStrip line) = false →
      cleanTableLine line = some (pyStrip line)) :=
  ⟨rfl, fun _ h1 h2 => cleanTableLine_pipe h1 h2,
    fun _ h1 h2 h3 => cleanTableLine_dash h1 h2 h3,
    fun _ h1 h2 h3 => cleanTableLine_plain h1 h2 h3⟩

/-- Claim C8, counterexample.  The mixed example keeps the divider line in
normalized form; the output differs from the divider-free output the claim
expects. -/
theorem c8_table_clean_counterexample :
    clean_markdown_table (("  a | b  \n---|---\nplain text").data) =
      ("| a | b |\n| ---|--- |\nplain text").data ∧
    ("| a | b |\n| ---|--- |\nplain text").data ≠ ("| a | b |\nplain text").data :=
  ⟨rfl, by decide⟩

/-- Witness for C8 at the concrete lines of the mixed example. -/
theorem c8_table_clean_witness :
    pyStrip (("  a | b  ").data) ≠ [] ∧
    cleanTableLine (("  a | b  ").data) = some (("| a | b |").data) ∧
    cleanTableLine (("---|---").data) = some (("| ---|--- |").data) ∧
    cleanTableLine (("- dashed").data) = none ∧
    cleanTableLine (("plain text").data) = some (("plain text").data) := by
  refine ⟨by decide, ?_, ?_, ?_, ?_⟩
  · rw [(c8_table_clean.2.1 (("  a | b  ").data) (by decide) (by decide)).1]
    rfl
  · rw [(c8_table_clean.2.1 (("---|---").data) (by decide) (by decide)).1]
    rfl
  · exact c8_table_clean.2.2.1 (("- dashed").data) (by decide) (by decide) (by decide)
  · rw [c8_table_clean.2.2.2 (("plain text").data) (by decide) (by decide) (by decide)]
    rfl

/-! ### Branch lemmas for the parser entry point -/

theorem parse_kt_eq (text : List Char) :
    parse_llm_response text "kt-analysis_prompt" =
      (match (match extract_json text with
        | some j => if pyTruthy j then
            pyUpdateJ [(jstr ("raw_response"), JValue.str text)] j
          else .ok [(jstr ("raw_response"), JValue.str text)]
        | none => .ok [(jstr ("raw_response"), JValue.str text)]) with
      | .ok r1 => .ok (pyUpdate r1 (parse_kt_sections text))
      | .error e => .error e) := by
  unfold parse_llm_response
  rw [if_pos rfl]

theorem parse_formal_eq (text : List Char) :
    parse_llm_response text "formal_rca_prompt" =
      .ok (pyUpdate [(jstr ("raw_response"), JValue.str text)]
        (parse_formal_rca_sections text)) := by
  unfold parse_llm_response
  rw [if_neg (by decide), if_pos rfl]

theorem parse_kt_cases (text : List Char) (d : Dict)
    (hp : parse_llm_response text "kt-analysis_prompt" = .ok d) :
    ∃ r1, d = pyUpdate r1 (parse_kt_sections text) := by
  rw [parse_kt_eq text] at hp
  cases hj : extract_json text with
  | none =>
    rw [hj] at hp
    dsimp only at hp
    exact ⟨_, (Except.ok.inj hp).symm⟩
  | some j =>
    rw [hj] at hp
    dsimp only at hp
    by_cases ht : pyTruthy j = true
    · rw [if_pos ht] at hp
      cases hu : pyUpdateJ [(jstr ("raw_response"), JValue.str text)] j with
      | ok r1 =>
        rw [hu] at hp
        dsimp only at hp
        exact ⟨r1, (Except.ok.inj hp).symm⟩
      | error e =>
        rw [hu] at hp
        exact Except.noConfusion hp
    · rw [if_neg ht] at hp
      dsimp only at hp
      exact ⟨_, (Except.ok.inj hp).symm⟩

theorem strKeys_parse_formal (t : List Char) : StrKeys (parse_formal_rca_sections t) := by
  unfold parse_formal_rca_sections
  by_cases he : (formal_sections_prefallback t).isEmpty = true
  · rw [if_pos he]
    intro x hx
    simp only [List.mem_singleton] at hx
    exact ⟨("executive_summary").data, by subst hx; rfl⟩
  · rw [if_neg he]
    exact strKeys_formal_prefallback t

/-- Claim C9 (corrected).  In the KT branch the section extraction is merged
after the JSON fields, so on a field-name collision the section value, not the
JSON value, ends up in the result: every field produced by the KT section
extraction appears in the final record with exactly its section value. -/
theorem c9_sections_precedence (text : List Char) (d : Dict) (k v : JValue)
    (hp : parse_llm_response text "kt-analysis_prompt" = .ok d)
    (hk : dictFind (parse_kt_sections text) k = some v) :
    dictFind d k = some v := by
  obtain ⟨r1, hd⟩ := parse_kt_cases text d hp
  rw [hd]
  refine find_pyUpdate_some r1 _ k v ?_
  rw [lookLast_eq_dictFind_of_nodup (nodup_parse_kt text) k]
  exact hk

/-- Claim C9, counterexample.  On an input whose embedded JSON object and KT
section extraction both define `recommendations`, the final value is the
section value `from-sections`, not the JSON value `from-json`. -/
theorem c9_sections_counterexample :
    parse_llm_response c9Input "kt-analysis_prompt" =
      .ok [(jstr ("raw_response"), JValue.str c9Input),
           (jstr ("recommendations"), jstr ("from-sections"))] ∧
    extract_json c9Input =
      some (JValue.obj [(("recommendations").data, jstr ("from-json"))]) ∧
    jstr ("from-sections") ≠ jstr ("from-json") := by
  refine ⟨rfl, rfl, ?_⟩
  intro hc
  injection hc with h2
  exact absurd h2 (by decide)

/-- Witness for C9 at the colliding concrete input. -/
theorem c9_sections_precedence_witness :
    parse_llm_response c9Input "kt-analysis_prompt" =
      .ok [(jstr ("raw_response"), JValue.str c9Input),
           (jstr ("recommendations"), jstr ("from-sections"))] ∧
    dictFind (parse_kt_sections c9Input) (jstr ("recommendations")) =
      some (jstr ("from-sections")) ∧
    dictFind [(jstr ("raw_response"), JValue.str c9Input),
              (jstr ("recommendations"), jstr ("from-sections"))]
      (jstr ("recommendations")) = some (jstr ("from-sections")) := by
  refine ⟨rfl, rfl, ?_⟩
  exact c9_sections_precedence c9Input _ _ _ rfl rfl

/-- Claim C10 (confirmed).  Under the formal-RCA type the parse result never
consists of `raw_response` alone: some section field is always present, and
when the pattern stage and the broader header extraction both produce nothing
the entire stripped input is stored under `executive_summary`. -/
theorem c10_formal_always_section (text : List Char) :
    ∃ d, parse_llm_response text "formal_rca_prompt" = .ok d ∧
      (∃ k v, jKeyEq k (jstr ("raw_response")) = false ∧ dictFind d k = some v) ∧
      (formal_sections_prefallback text = [] →
        dictFind d (jstr ("executive_summary")) = some (JValue.str (pyStrip text))) := by
  refine ⟨pyUpdate [(jstr ("raw_response"), JValue.str text)] (parse_formal_rca_sections text),
    parse_formal_eq text, ?_, ?_⟩
  · have hne : parse_formal_rca_sections text ≠ [] := by
      unfold parse_formal_rca_sections
      by_cases he : (formal_sections_prefallback text).isEmpty = true
      · rw [if_pos he]
        simp
      · rw [if_neg he]
        intro hc
        rw [hc] at he
        exact he rfl
    obtain ⟨x, rest, hs⟩ : ∃ x rest, parse_formal_rca_sections text = x :: rest := by
      cases hx : parse_formal_rca_sections text with
      | nil => exact absurd hx hne
      | cons a b => exact ⟨a, b, rfl⟩
    obtain ⟨k0, v0⟩ := x
    obtain ⟨s, hks⟩ : ∃ s, k0 = JValue.str s := by
      have hmem := strKeys_parse_formal text (k0, v0) (by rw [hs]; simp)
      simpa using hmem
    have hfind : dictFind (parse_formal_rca_sections text) k0 = some v0 := by
      rw [hs]
      show (if jKeyEq k0 k0 then some v0 else dictFind rest k0) = some v0
      rw [hks, jKeyEq_str_refl]
      simp
    have hkf : jKeyEq k0 (jstr ("raw_response")) = false := by
      cases hk : jKeyEq k0 (jstr ("raw_response"))
      · rfl
      · exfalso
        have e := jKeyEq_eq hk
        have hfr := find_parse_formal_raw text
        rw [← e] at hfr
        rw [hfind] at hfr
        exact Option.noConfusion hfr
    cases hll : lookLast (parse_formal_rca_sections text) k0 with
    | none =>
      exfalso
      have hnone := (lookLast_eq_none_iff _ _).mp hll
      rw [hfind] at hnone
      exact Option.noConfusion hnone
    | some w =>
      exact ⟨k0, w, hkf, find_pyUpdate_some _ _ _ _ hll⟩
  · intro hpre
    have hsec : parse_formal_rca_sections text =
        [(jstr ("executive_summary"), JValue.str (pyStrip text))] := by
      unfold parse_formal_rca_sections
      rw [hpre]
      rfl
    rw [hsec]
    show dictFind (dictSet [(jstr ("raw_response"), JValue.str text)]
      (jstr ("executive_summary")) (JValue.str (pyStrip text))) (jstr ("executive_summary")) = _
    rw [dictFind_dictSet]
    rw [show jKeyEq (jstr ("executive_summary")) (jstr ("executive_summary")) = true from
      by decide]
    simp

/-- Witness for C10 at the empty input, on which no pattern matches and the
executive-summary fallback fires. -/
theorem c10_formal_always_section_witness :
    parse_llm_response [] "formal_rca_prompt" =
      .ok [(jstr ("raw_response"), JValue.str []),
           (jstr ("executive_summary"), JValue.str [])] ∧
    dictFind [(jstr ("raw_response"), JValue.str []),
              (jstr ("executive_summary"), JValue.str [])]
      (jstr ("executive_summary")) = some (JValue.str (pyStrip [])) := by
  obtain ⟨d, h1, _h2, h3⟩ := c10_formal_always_section []
  have hL : parse_llm_response [] "formal_rca_prompt" =
      .ok [(jstr ("raw_response"), JValue.str []),
           (jstr ("executive_summary"), JValue.str [])] := rfl
  have hd : d = [(jstr ("raw_response"), JValue.str []),
                 (jstr ("executive_summary"), JValue.str [])] :=
    Except.ok.inj (h1.symm.trans hL)
  exact ⟨hL, hd ▸ h3 rfl⟩

/-- Claim C2 (corrected).  The stored raw response equals the input text except
when the branch performs JSON extraction and the truthy decoded value yields a
`raw_response` entry under dict-update semantics — then that update, merged
after the initial assignment, overwrites it and `raw_response` carries the
extracted value instead. -/
theorem c2_raw_response (text : List Char) (analysis_type : String) (d : Dict)
    (h : parse_llm_response text analysis_type = .ok d) :
    dictFind d (jstr ("raw_response")) = some (JValue.str text) ∨
    (∃ j ps v, extract_json text = some j ∧ pyTruthy j = true ∧
      toPairs j = .ok ps ∧ lookLast ps (jstr ("raw_response")) = some v ∧
      dictFind d (jstr ("raw_response")) = some v) := by
  unfold parse_llm_response at h
  by_cases hty1 : analysis_type = "kt-analysis_prompt"
  · rw [if_pos hty1] at h
    cases hj : extract_json text with
    | none =>
      rw [hj] at h
      dsimp only at h
      left
      have hd : d = pyUpdate [(jstr ("raw_response"), JValue.str text)]
          (parse_kt_sections text) := (Except.ok.inj h).symm
      rw [hd, find_pyUpdate_none _ _ _
        ((lookLast_eq_none_iff _ _).mpr (find_parse_kt_raw text))]
      rfl
    | some j =>
      rw [hj] at h
      dsimp only at h
      by_cases ht : pyTruthy j = true
      · rw [if_pos ht] at h
        cases hu : pyUpdateJ [(jstr ("raw_response"), JValue.str text)] j with
        | error e =>
          rw [hu] at h
          exact Except.noConfusion h
        | ok r1 =>
          rw [hu] at h
          dsimp only at h
          have hd : d = pyUpdate r1 (parse_kt_sections text) := (Except.ok.inj h).symm
          unfold pyUpdateJ at hu
          cases hps : toPairs j with
          | error e2 =>
            rw [hps] at hu
            simp [Except.map] at hu
          | ok ps =>
            rw [hps] at hu
            have hr1 : r1 = pyUpdate [(jstr ("raw_response"), JValue.str text)] ps := by
              simpa [Except.map] using hu.symm
            have hstep : dictFind d (jstr ("raw_response")) =
                dictFind r1 (jstr ("raw_response")) := by
              rw [hd, find_pyUpdate_none _ _ _
                ((lookLast_eq_none_iff _ _).mpr (find_parse_kt_raw text))]
            cases hll : lookLast ps (jstr ("raw_response")) with
            | none =>
              left
              rw [hstep, hr1, find_pyUpdate_none _ _ _ hll]
              rfl
            | some v =>
              right
              exact ⟨j, ps, v, rfl, ht, hps, hll, by
                rw [hstep, hr1]
                exact find_pyUpdate_some _ _ _ _ hll⟩
      · rw [if_neg ht] at h
        dsimp only at h
        left
        have hd : d = pyUpdate [(jstr ("raw_response"), JValue.str text)]
            (parse_kt_sections text) := (Except.ok.inj h).symm
        rw [hd, find_pyUpdate_none _ _ _
          ((lookLast_eq_none_iff _ _).mpr (find_parse_kt_raw text))]
        rfl
  · rw [if_neg hty1] at h
    by_cases hty2 : analysis_type = "formal_rca_prompt"
    · rw [if_pos hty2] at h
      left
      have hd : d = pyUpdate [(jstr ("raw_response"), JValue.str text)]
          (parse_formal_rca_sections text) := (Except.ok.inj h).symm
      rw [hd, find_pyUpdate_none _ _ _
        ((lookLast_eq_none_iff _ _).mpr (find_parse_formal_raw text))]
      rfl
    · rw [if_neg hty2] at h
      by_cases hty3 : analysis_type = "initial_analysis_prompt"
      · rw [if_pos hty3] at h
        left
        have hd : d = pyUpdate [(jstr ("raw_response"), JValue.str text)]
            (parse_initial_analysis_sections text) := (Except.ok.inj h).symm
        rw [hd, find_pyUpdate_none _ _ _
          ((lookLast_eq_none_iff _ _).mpr (find_parse_init_raw text))]
        rfl
      · rw [if_neg hty3] at h
        cases hj : extract_json text with
        | none =>
          rw [hj] at h
          left
          have hd : d = [(jstr ("raw_response"), JValue.str text)] :=
            (Except.ok.inj h).symm
          rw [hd]
          rfl
        | some j =>
          rw [hj] at h
          dsimp only at h
          by_cases ht : pyTruthy j = true
          · rw [if_pos ht] at h
            unfold pyUpdateJ at h
            cases hps : toPairs j with
            | error e2 =>
              rw [hps] at h
              simp [Except.map] at h
            | ok ps =>
              rw [hps] at h
              have hd : d = pyUpdate [(jstr ("raw_response"), JValue.str text)] ps := by
                simpa [Except.map] using h.symm
              cases hll : lookLast ps (jstr ("raw_response")) with
              | none =>
                left
                rw [hd, find_pyUpdate_none _ _ _ hll]
                rfl
              | some v =>
                right
                exact ⟨j, ps, v, rfl, ht, hps, hll, by
                  rw [hd]
                  exact find_pyUpdate_some _ _ _ _ hll⟩
          · rw [if_neg ht] at h
            left
            have hd : d = [(jstr ("raw_response"), JValue.str text)] :=
              (Except.ok.inj h).symm
            rw [hd]
            rfl

/-- Witness for C2 at a concrete extraction-free input, where the raw response
is preserved verbatim. -/
theorem c2_raw_response_witness :
    parse_llm_response (("plain text, no json").data) "standard" =
      .ok [(jstr ("raw_response"), jstr ("plain text, no json"))] ∧
    (dictFind [(jstr ("raw_response"), jstr ("plain text, no json"))]
        (jstr ("raw_response")) = some (JValue.str (("plain text, no json").data)) ∨
      (∃ j ps v, extract_json (("plain text, no json").data) = some j ∧
        pyTruthy j = true ∧ toPairs j = .ok ps ∧
        lookLast ps (jstr ("raw_response")) = some v ∧
        dictFind [(jstr ("raw_response"), jstr ("plain text, no json"))]
          (jstr ("raw_response")) = some v)) := by
  refine ⟨rfl, ?_⟩
  exact c2_raw_response (("plain text, no json").data) "standard" _ rfl
